import Mathlib

/-!
Verification development for the corelms quiz backend.

Shallow embedding of the quiz-generation and quiz-session code of the
repository (`backend/app/services/llm_handler.py`,
`backend/app/services/quiz_generation.py`, `backend/app/routers/quizzes.py`,
`backend/app/services/quiz_regeneration_jobs.py`, `backend/app/routers/admin.py`)
together with theorems settling the specification claims about it.

Python strings are modelled as Lean `String`; Python ASCII-relevant case
mapping is modelled by `Char.toUpper`/`Char.toLower` (all comparisons done by
the code are against ASCII letters, so non-ASCII case differences never change
an outcome); machine time is modelled as `Nat` seconds; the Redis key-value
store is modelled explicitly; database rows are modelled as lists of
structures.
-/

namespace Corelms

/-- Python `\s` for the ASCII range: the whitespace characters recognised by
`str.strip` and `re.sub(r"\s+", ...)` on the inputs at hand. -/
def isSpaceChar (c : Char) : Bool :=
  c = ' ' || c = '\t' || c = '\n' || c = '\r' || c = '\x0b' || c = '\x0c'

/-- Python `s.strip()`. -/
def pyStrip (s : String) : String :=
  String.mk (((s.data.dropWhile isSpaceChar).reverse.dropWhile isSpaceChar).reverse)

/-- Helper for `collapseWs`: the flag records whether the previous character
was whitespace (already emitted as the single `' '`). -/
def collapseWsAux : Bool → List Char → List Char
  | _, [] => []
  | afterSpace, c :: rest =>
    if isSpaceChar c then
      if afterSpace then collapseWsAux true rest
      else ' ' :: collapseWsAux true rest
    else c :: collapseWsAux false rest

/-- Python `re.sub(r"\s+", " ", ·)` on a character list: every maximal
whitespace run becomes a single space. -/
def collapseWs (cs : List Char) : List Char := collapseWsAux false cs

/-- `_clean` of `llm_handler.py` (identical to `_clean_line` of
`quiz_generation.py`): `re.sub(r"\s+", " ", s.strip()).strip()`. -/
def pyClean (s : String) : String :=
  pyStrip (String.mk (collapseWs (pyStrip s).data))

/-- Python `str.upper` (ASCII case mapping). -/
def pyUpper (s : String) : String := String.mk (s.data.map Char.toUpper)

/-- Python `str.lower` (ASCII case mapping). -/
def pyLower (s : String) : String := String.mk (s.data.map Char.toLower)

/-- Split a character list at every occurrence of `sep` (semantics of Python
`str.split(sep)` for a one-character separator). -/
def splitOnChar (sep : Char) : List Char → List (List Char)
  | [] => [[]]
  | c :: rest =>
    let r := splitOnChar sep rest
    if c = sep then [] :: r
    else
      match r with
      | h :: t => (c :: h) :: t
      | [] => [[c]]

/-- Helper for `pySplitlines`. -/
def pySplitlinesAux : List Char → List Char → List String
  | [], acc => if acc.isEmpty then [] else [String.mk acc.reverse]
  | '\r' :: '\n' :: rest, acc => String.mk acc.reverse :: pySplitlinesAux rest []
  | '\r' :: rest, acc => String.mk acc.reverse :: pySplitlinesAux rest []
  | '\n' :: rest, acc => String.mk acc.reverse :: pySplitlinesAux rest []
  | c :: rest, acc => pySplitlinesAux rest (c :: acc)

/-- Python `str.splitlines` (for the line terminators occurring in prompts:
`\n`, `\r`, `\r\n`). -/
def pySplitlines (s : String) : List String := pySplitlinesAux s.data []

end Corelms

namespace LlmHandler

open Corelms

/-- A candidate question as returned by a provider: the four fields read by the
validator in `generate_quiz_questions_ai` (`llm_handler.py`). A Python `None`
explanation is the empty string. -/
structure GenQ where
  qtype : String
  prompt : String
  correct_answer : String
  explanation : String
deriving DecidableEq

/-- The accumulator for `_extract_abcd_options`: the Python dict keyed by the
letters `A`–`D`. -/
structure OptsMap where
  a : Option String
  b : Option String
  c : Option String
  d : Option String

def OptsMap.empty : OptsMap := ⟨none, none, none, none⟩

def OptsMap.set (m : OptsMap) (k : Char) (v : String) : OptsMap :=
  if k = 'A' then { m with a := some v }
  else if k = 'B' then { m with b := some v }
  else if k = 'C' then { m with c := some v }
  else { m with d := some v }

def letterKeys : List Char := ['A', 'B', 'C', 'D']

/-- One loop body of `_extract_abcd_options` (`llm_handler.py` lines 41-63):
recognise `A)` / `A.` / `A:` / `A -` / `A —` labels at the start of a stripped
line and return the label letter with the option text. -/
def parseOptionLine (ln : List Char) : Option (Char × String) :=
  if ln.length < 3 then none
  else
    match ln with
    | c0 :: c1 :: c2 :: rest =>
      let k0 := c0.toUpper
      let u1 := c1.toUpper
      let u2 := c2.toUpper
      if k0 ∈ letterKeys ∧ u1 = ')' then
        some (k0, pyStrip (String.mk (c2 :: rest)))
      else if k0 ∈ letterKeys ∧ (u1 = '.' ∨ u1 = ':') then
        some (k0, pyStrip (String.mk (c2 :: rest)))
      else if k0 ∈ letterKeys ∧ u1 = ' ' ∧ (u2 = '-' ∨ u2 = '—') then
        some (k0, pyStrip (String.mk rest))
      else none
    | _ => none

/-- `_extract_abcd_options` of `llm_handler.py`: parse the prompt's lines into
the `A`–`D` option map (later lines overwrite, empty values are not stored) and
return the four option texts when all four letters are present. -/
def extractAbcdOptions (prompt : String) : Option (List String) :=
  if prompt = "" then none
  else
    let lines := (pySplitlines prompt).filterMap fun l =>
      let t := pyStrip l
      if t = "" then none else some t
    let m := lines.foldl (fun m ln =>
      match parseOptionLine ln.data with
      | some (k, v) => if v ≠ "" then m.set k v else m
      | none => m) OptsMap.empty
    match m.a, m.b, m.c, m.d with
    | some va, some vb, some vc, some vd => some [va, vb, vc, vd]
    | _, _, _, _ => none

/-- `_norm_correct_answer` of `llm_handler.py`: clean, uppercase, take the
first character, and keep it only if it is one of `A`-`D`. -/
def normCorrectAnswer (raw : String) : String :=
  let s := pyUpper (pyClean raw)
  if s = "" then ""
  else
    let ch := String.mk (s.data.take 1)
    if ch ∈ (["A", "B", "C", "D"] : List String) then ch else ""

/-- The multi-choice answer parsing of `_is_valid_question`:
`[p.strip().upper() for p in ca_raw.split(",") if p.strip()]`. -/
def multiParts (caRaw : String) : List String :=
  ((splitOnChar ',' caRaw.data).map String.mk).filterMap fun p =>
    let t := pyStrip p
    if t = "" then none else some (pyUpper t)

/-- The normalised declared type of a candidate
(`_clean(getattr(q, "type", "") or "single").lower()`). -/
def rawTypeOf (q : GenQ) : String :=
  pyLower (pyClean (if q.qtype = "" then "single" else q.qtype))

/-- `_is_valid_question` of `llm_handler.py` (lines 76-116). Returns the
verdict together with the updated `seen_prompts` set (modelled as a list). -/
def isValidQuestion (q : GenQ) (seen : List String) : Bool × List String :=
  let rawType := rawTypeOf q
  if rawType ∉ (["single", "multi", "case"] : List String) then (false, seen)
  else
    let prompt := pyStrip q.prompt
    if (pyClean prompt).length < 18 then (false, seen)
    else
      let normP := pyLower (pyClean prompt)
      if normP ∈ seen then (false, seen)
      else
        match extractAbcdOptions prompt with
        | none => (false, seen)
        | some opts =>
          let normOpts := opts.map fun o => pyLower (pyClean o)
          if ((normOpts.filter (fun o => o ≠ "")).dedup).length ≠ 4 then (false, seen)
          else if normOpts.any (fun o => o.length < 2) then (false, seen)
          else
            let caRaw := pyClean q.correct_answer
            let okAnswer : Bool :=
              if rawType = "multi" then
                let parts := multiParts caRaw
                decide (2 ≤ parts.length) &&
                  parts.all (fun p => p ∈ (["A", "B", "C", "D"] : List String))
              else
                decide (normCorrectAnswer caRaw ∈ (["A", "B", "C", "D"] : List String))
            if !okAnswer then (false, seen)
            else
              let exp := pyClean q.explanation
              if exp.length < 6 then (false, seen)
              else (true, normP :: seen)

/-- Helper for `_filter_questions`. -/
def filterQuestionsAux : List GenQ → Nat → List String → List GenQ → List GenQ
  | [], _, _, out => out
  | q :: rest, want, seen, out =>
    let r := isValidQuestion q seen
    let out2 := if r.1 then out ++ [q] else out
    if want ≤ out2.length then out2
    else filterQuestionsAux rest want r.2 out2

/-- `_filter_questions` of `llm_handler.py` (lines 118-126): keep the valid
questions in order, stopping once `want` have been collected. -/
def filterQuestions (items : List GenQ) (want : Nat) : List GenQ :=
  filterQuestionsAux items want [] []

/-- The answer letters collected by `_is_degenerate`: first character of each
nonempty cleaned `correct_answer`, uppercased. -/
def answerLetters (items : List GenQ) : List String :=
  items.filterMap fun q =>
    let ca := pyClean q.correct_answer
    if ca = "" then none else some (pyUpper (String.mk (ca.data.take 1)))

/-- The answer letter of a single candidate (`none` when the cleaned answer is
empty). -/
def answerLetterOf (q : GenQ) : Option String :=
  let ca := pyClean q.correct_answer
  if ca = "" then none else some (pyUpper (String.mk (ca.data.take 1)))

/-- `_is_degenerate` of `llm_handler.py` (lines 128-140): at least 3 items, at
least 3 nonempty answers, and all collected answer letters identical
(`len(set(answers)) <= 1`). -/
def isDegenerate (items : List GenQ) : Bool :=
  if items.length < 3 then false
  else
    let answers := answerLetters items
    if answers.length < 3 then false
    else decide (answers.dedup.length ≤ 1)

/-- The degeneracy discard step of `generate_quiz_questions_ai`
(`llm_handler.py` lines 265-268): `if valid and _is_degenerate(valid): valid = []`. -/
def applyDegeneracyCheck (valid : List GenQ) : List GenQ :=
  if valid ≠ [] ∧ isDegenerate valid then [] else valid

end LlmHandler

namespace Corelms

/-- Python `re.split(r"\r?\n", s)`: split at every `\n`, dropping a `\r`
immediately before it. A trailing `\r` not followed by `\n` stays. -/
def splitNewlines (s : String) : List String :=
  let parts := splitOnChar '\n' s.data
  parts.dropLast.map (fun l => String.mk (if l.getLast? = some '\r' then l.dropLast else l))
    ++ (parts.drop (parts.length - 1)).map String.mk

/-- `"sep".join(l)`. -/
def joinSep (sep : String) : List String → String
  | [] => ""
  | [x] => x
  | x :: rest => x ++ sep ++ joinSep sep rest

/-- Lexicographic comparison on code points, as Python string `<=`. -/
def charListLe : List Char → List Char → Bool
  | [], _ => true
  | _ :: _, [] => false
  | a :: as, b :: bs =>
    if a.val < b.val then true else if b.val < a.val then false else charListLe as bs

def strLexLe (a b : String) : Bool := charListLe a.data b.data

def insertSorted (x : String) : List String → List String
  | [] => [x]
  | y :: rest => if strLexLe x y then x :: y :: rest else y :: insertSorted x rest

/-- Python `sorted` on strings (insertion sort, lexicographic, stable). -/
def sortStrings : List String → List String
  | [] => []
  | x :: rest => insertSorted x (sortStrings rest)

/-- Model of a seeded `random.Random` instance: an arbitrary stream of natural
numbers together with a position. The theorems proved below hold for every
stream, hence in particular for the stream realised by Python's Mersenne
Twister for any seed. -/
structure Rng where
  stream : Nat → Nat
  pos : Nat

def Rng.next (r : Rng) : Nat × Rng := (r.stream r.pos, ⟨r.stream, r.pos + 1⟩)

/-- Helper for `Rng.shuffle`: repeatedly remove the element at a
stream-selected index. -/
def shuffleAux {α : Type} [Inhabited α] : Nat → Rng → List α → List α → List α × Rng
  | 0, r, _, acc => (acc.reverse, r)
  | k + 1, r, l, acc =>
    let p := r.next
    let i := p.1 % l.length
    shuffleAux k p.2 (l.eraseIdx i) (l.getD i default :: acc)

/-- Model of `random.Random.shuffle` (as a pure function returning the
shuffled list): a stream-determined permutation of the input. -/
def Rng.shuffle {α : Type} [Inhabited α] (r : Rng) (l : List α) : List α × Rng :=
  shuffleAux l.length r l []

/-- Model of `random.Random.choice`: a stream-selected element of the
(nonempty, at every call site) list. -/
def Rng.choice {α : Type} [Inhabited α] (r : Rng) (l : List α) : α × Rng :=
  let p := r.next
  (l.getD (p.1 % l.length) default, p.2)

end Corelms

namespace QuizGen

open Corelms

/-- Tail of the fact-prefix regex `\s*[.)\-]?\s+`: returns the remainder after
the (greedy, backtracking) match, or `none`. -/
def matchListPrefixTail (cs : List Char) : Option (List Char) :=
  let r1 := cs.dropWhile isSpaceChar
  let w1nonempty : Bool :=
    match cs with
    | [] => false
    | c :: _ => isSpaceChar c
  match r1 with
  | [] => if w1nonempty then some [] else none
  | c :: rest2 =>
    if (c = '.' || c = ')' || c = '-') &&
        (match rest2 with | [] => false | d :: _ => isSpaceChar d) then
      some (rest2.dropWhile isSpaceChar)
    else if w1nonempty then some r1 else none

/-- Head of the fact-prefix regex `^(\d{1,2}|[\-•])\s*[.)\-]?\s+` of
`extract_facts` (`quiz_generation.py` line 22): one or two digits or a bullet,
then `matchListPrefixTail`.  (When two digits are present the one-digit
alternative can never succeed, so the greedy match needs no backtracking.) -/
def matchFactPrefix (cs : List Char) : Option (List Char) :=
  match cs with
  | [] => none
  | c0 :: rest =>
    if c0.isDigit then
      match rest with
      | c1 :: rest2 => if c1.isDigit then matchListPrefixTail rest2 else matchListPrefixTail rest
      | [] => none
    else if c0 = '-' || c0 = '•' then matchListPrefixTail rest
    else none

/-- `re.sub(prefix, "", ln).strip()` for a line matching the fact prefix. -/
def stripFactPrefix (ln : String) : Option String :=
  match matchFactPrefix ln.data with
  | some rest => some (pyStrip (String.mk rest))
  | none => none

def isSentPunct (c : Char) : Bool := c = '.' || c = '!' || c = '?'

/-- Helper for `splitSentences`: scanner for `re.split(r"[.!?]+\s+", ·)`.
`acc` is the current segment (reversed), `pend` a pending run of sentence
punctuation (a split happens exactly when such a run is followed by
whitespace), `skipWs` the state inside the `\s+` run after a split. -/
def splitSentencesAux : List Char → List Char → List Char → Bool → List (List Char)
  | [], acc, pend, skipWs => if skipWs then [[]] else [(pend ++ acc).reverse]
  | c :: rest, acc, pend, skipWs =>
    if skipWs then
      if isSpaceChar c then splitSentencesAux rest [] [] true
      else if isSentPunct c then splitSentencesAux rest [] [c] false
      else splitSentencesAux rest [c] [] false
    else
      if isSentPunct c then splitSentencesAux rest acc (c :: pend) false
      else if isSpaceChar c then
        if pend = [] then splitSentencesAux rest (c :: acc) [] false
        else acc.reverse :: splitSentencesAux rest [] [] true
      else splitSentencesAux rest (c :: (pend ++ acc)) [] false

/-- Python `re.split(r"[.!?]+\s+", s)`. -/
def splitSentences (s : String) : List String :=
  (splitSentencesAux s.data [] [] false).map String.mk

/-- The order-preserving case-insensitive deduplication loop of
`extract_facts` (`quiz_generation.py` lines 30-40). Returns the deduplicated
list and the `seen` key set. -/
def dedupFactsAux : List String → List String → List String → List String × List String
  | [], seen, acc => (acc.reverse, seen)
  | x :: rest, seen, acc =>
    let x2 := pyClean x
    if x2 = "" then dedupFactsAux rest seen acc
    else
      let key := pyLower x2
      if key ∈ seen then dedupFactsAux rest seen acc
      else dedupFactsAux rest (key :: seen) (x2 :: acc)

/-- The sentence-adding loop of `extract_facts` (lines 52-57). -/
def addSentsAux : List String → List String → List String → List String
  | [], _, acc => acc.reverse
  | s :: rest, seen, acc =>
    if 25 ≤ s.length ∧ s.length ≤ 170 then
      let key := pyLower s
      if key ∈ seen then addSentsAux rest seen acc
      else addSentsAux rest (key :: seen) (s :: acc)
    else addSentsAux rest seen acc

/-- `extract_facts` of `quiz_generation.py`. -/
def extract_facts (text : String) : List String :=
  if text = "" then []
  else
    let lines := (splitNewlines text).filterMap fun x =>
      let t := pyClean x
      if t = "" then none else some t
    let picked0 := lines.filterMap stripFactPrefix
    let picked :=
      if picked0.length < 6 then
        picked0 ++ lines.filter (fun ln => 25 ≤ ln.length ∧ ln.length ≤ 170)
      else picked0
    let du := dedupFactsAux picked [] []
    let uniq :=
      if du.1.length < 8 then
        let sents := (splitSentences (pyStrip text)).filterMap fun s =>
          let t := pyClean s
          if t = "" then none else some t
        du.1 ++ addSentsAux sents du.2 []
      else du.1
    uniq.take 40

/-- The ten domain-neutral filler statements of `_pad_facts`. -/
def padSeeds (t : String) : List String :=
  ["Урок «" ++ t ++ "»: ключевой шаг — корректно оформить документы.",
   "Урок «" ++ t ++ "»: важно соблюдать порядок действий.",
   "Урок «" ++ t ++ "»: проверь данные перед отправкой.",
   "Урок «" ++ t ++ "»: следуй регламенту компании.",
   "Урок «" ++ t ++ "»: фиксируй результат в системе.",
   "Урок «" ++ t ++ "»: обрати внимание на сроки и статусы.",
   "Урок «" ++ t ++ "»: используйте утверждённые шаблоны.",
   "Урок «" ++ t ++ "»: согласование — обязательный этап.",
   "Урок «" ++ t ++ "»: типичная ошибка — пропуск проверки.",
   "Урок «" ++ t ++ "»: финальный контроль качества обязателен."]

/-- The seed-appending loop of `_pad_facts` (lines 81-87). -/
def padFactsAux : List String → List String → List String
  | [], base => base
  | s :: rest, base =>
    if 10 ≤ base.length then base
    else
      let ss := pyClean s
      if ss ≠ "" ∧ pyLower ss ∉ base.map pyLower then padFactsAux rest (base ++ [ss])
      else padFactsAux rest base

/-- `_pad_facts` of `quiz_generation.py`. -/
def pad_facts (title : String) (facts : List String) : List String :=
  if 10 ≤ facts.length then facts
  else
    let t := if pyClean title = "" then "уроку" else pyClean title
    padFactsAux (padSeeds t) facts

/-- The `MCQ` dataclass of `quiz_generation.py`. -/
structure MCQ where
  prompt : String
  correct_answer : String
  qtype : String
deriving DecidableEq

/-- `_format_mcq_prompt`. -/
def formatMcqPrompt (stem : String) (options : List String) : String :=
  let letters := (["A", "B", "C", "D"] : List String)
  let rows := (options.take 4).enum.map fun p => letters.getD p.1 "" ++ ") " ++ p.2
  joinSep "\n" (pyStrip stem :: rows)

/-- `make_single` of `quiz_generation.py`. -/
def make_single (title : String) (facts : List String) (rng : Rng) : Option MCQ × Rng :=
  if facts.length < 4 then (none, rng)
  else
    let pc := rng.choice facts
    let correct := pc.1
    let distractors := facts.filter (fun x => x ≠ correct)
    let pd := pc.2.shuffle distractors
    let po := pd.2.shuffle (correct :: pd.1.take 3)
    let opts := po.1
    let correctLetter := (["A", "B", "C", "D"] : List String).getD (opts.indexOf correct) ""
    let stem := "Что из перечисленного относится к уроку «" ++ title ++ "»?"
    (some ⟨formatMcqPrompt stem opts, correctLetter, "single"⟩, po.2)

/-- `make_multi` of `quiz_generation.py`. -/
def make_multi (title : String) (facts : List String) (rng : Rng) : Option MCQ × Rng :=
  if facts.length < 6 then (none, rng)
  else
    let pp := rng.shuffle facts
    let pool := pp.1
    let correctSet := pool.take 2
    let distractors := pool.drop 2
    let po := pp.2.shuffle (correctSet ++ distractors.take 2)
    let opts := po.1
    let letters := (["A", "B", "C", "D"] : List String)
    let correctLetters := opts.enum.filterMap fun p =>
      if p.2 ∈ correctSet then some (letters.getD p.1 "") else none
    let ans := joinSep "," (sortStrings correctLetters)
    let stem := "Выберите верные утверждения по уроку «" ++ title ++ "» (ответ буквами, пример: A,C)."
    (some ⟨formatMcqPrompt stem opts, ans, "multi"⟩, po.2)

/-- The hard-coded safe fallback question of
`generate_quiz_questions_heuristic` (lines 151-161). -/
def heuristicFallbackQ (title : String) (rng : Rng) : MCQ × Rng :=
  let stem := "По уроку «" ++ title ++ "» выберите верный вариант."
  let po := rng.shuffle (["Следовать регламенту", "Игнорировать порядок действий",
    "Пропустить проверку данных", "Не фиксировать результат"] : List String)
  let opts := po.1
  let prompt := formatMcqPrompt stem opts
  (⟨prompt, (["A", "B", "C", "D"] : List String).getD (opts.indexOf "Следовать регламенту") "",
    "single"⟩, po.2)

/-- The `while len(out) < want` loop of `generate_quiz_questions_heuristic`:
each iteration appends exactly one question (a generated one or the fallback),
so the loop runs exactly `want - len(out)` times; `n` is `len(out)`. -/
def heuristicLoop (title : String) (facts : List String) :
    Nat → Nat → Rng → List MCQ → List MCQ
  | 0, _, _, acc => acc.reverse
  | k + 1, n, rng, acc =>
    let pq :=
      if n % 3 = 2 then make_multi title facts rng
      else make_single title facts rng
    match pq.1 with
    | some mcq => heuristicLoop title facts k (n + 1) pq.2 (mcq :: acc)
    | none =>
      let pf := heuristicFallbackQ title pq.2
      heuristicLoop title facts k (n + 1) pf.2 (pf.1 :: acc)

/-- `generate_quiz_questions_heuristic` of `quiz_generation.py`. `rng` models
the `random.Random(seed)` instance; `target` is the Python `int` argument
(`want = max(1, int(target or 1))`). -/
def generate_quiz_questions_heuristic (rng : Rng) (title theory_text : String)
    (target : Int) : List MCQ :=
  let facts := pad_facts title (extract_facts theory_text)
  let want : Nat := (max 1 (if target = 0 then 1 else target)).toNat
  let out := heuristicLoop title facts want 0 rng []
  out.take want

end QuizGen

namespace Db

/-- A row of the `questions` table (the columns read by the embedded code).
Ids are modelled as `Nat` (Python UUIDs; every id in the model parses). -/
structure Question where
  id : Nat
  quiz_id : Nat
  qtype : String
  prompt : String
  correct_answer : String
  explanation : Option String
  concept_tag : Option String
  variant_group : Option String
deriving DecidableEq

instance : Inhabited Question := ⟨⟨0, 0, "", "", "", none, none, none⟩⟩

/-- A row of the `quizzes` table. `time_limit = none` models SQL `NULL`. -/
structure Quiz where
  id : Nat
  qtype : String
  pass_threshold : Nat
  time_limit : Option Nat
  attempts_limit : Nat
deriving DecidableEq

/-- A row of the `submodules` table. -/
structure Submodule where
  id : Nat
  module_id : Nat
  order : Nat
  title : String
  content : String
  quiz_id : Option Nat
deriving DecidableEq

/-- A row of the `modules` table. -/
structure Module where
  id : Nat
  title : String
  final_quiz_id : Option Nat
deriving DecidableEq

/-- The relational store as seen by the embedded code. -/
structure Store where
  modules : List Module
  submodules : List Submodule
  quizzes : List Quiz
  questions : List Question
deriving DecidableEq

def insertSubByOrder (x : Submodule) : List Submodule → List Submodule
  | [] => [x]
  | y :: rest =>
    if x.order ≤ y.order then x :: y :: rest else y :: insertSubByOrder x rest

/-- `ORDER BY Submodule.order` (ties resolved deterministically in the model;
the database leaves them unspecified and no claim depends on them). -/
def sortSubsByOrder : List Submodule → List Submodule
  | [] => []
  | x :: rest => insertSubByOrder x (sortSubsByOrder rest)

def insertNat (x : Nat) : List Nat → List Nat
  | [] => [x]
  | y :: rest => if x ≤ y then x :: y :: rest else y :: insertNat x rest

/-- `ORDER BY Question.id`. -/
def sortNats : List Nat → List Nat
  | [] => []
  | x :: rest => insertNat x (sortNats rest)

end Db

namespace Quizzes

open Corelms Db

/-- `_map_option_letter` of `quizzes.py` on a single matched character
(the call sites only pass single characters found by the regex). Cyrillic
А Б В Г Д map to A B C D E. -/
def pyCharUpper (c : Char) : Char :=
  if c = 'а' then 'А' else if c = 'б' then 'Б' else if c = 'в' then 'В'
  else if c = 'г' then 'Г' else if c = 'д' then 'Д' else c.toUpper

def mapOptionLetter (c : Char) : Char :=
  let u := pyCharUpper c
  if u = 'А' then 'A' else if u = 'Б' then 'B' else if u = 'В' then 'C'
  else if u = 'Г' then 'D' else if u = 'Д' then 'E' else u

/-- The character class `[A-Ea-eАБВГДабвгд]` of `_normalize_single` /
`_normalize_multi` / `_looks_like_multi`. -/
def isOptionLetterChar (c : Char) : Bool :=
  ('A' ≤ c && c ≤ 'E') || ('a' ≤ c && c ≤ 'e') ||
    c ∈ (['А', 'Б', 'В', 'Г', 'Д', 'а', 'б', 'в', 'г', 'д'] : List Char)

/-- `_normalize_single` of `quizzes.py`: the first option letter in the
string, mapped through `_map_option_letter`. -/
def normalizeSingle (answer : String) : String :=
  match answer.data.filter isOptionLetterChar with
  | [] => ""
  | c :: _ => String.mk [mapOptionLetter c]

/-- `_normalize_multi` of `quizzes.py`: the sorted deduplicated set of mapped
option letters, comma-joined. -/
def normalizeMulti (answer : String) : String :=
  let letters := (answer.data.filter isOptionLetterChar).map mapOptionLetter
  joinSep "," (sortStrings ((letters.dedup).map fun c => String.mk [c]))

/-- `_looks_like_multi` of `quizzes.py`. -/
def looksLikeMulti (answer : String) : Bool :=
  2 ≤ ((answer.data.filter isOptionLetterChar).map mapOptionLetter).dedup.length

/-- `_is_correct` of `quizzes.py`. (For `case` questions both branches of the
Python code return `bool(got)`.) -/
def isCorrectAnswer (q : Question) (answer : String) : Bool :=
  let expected := pyStrip q.correct_answer
  let got := pyStrip answer
  if q.qtype = "case" then got ≠ ""
  else if q.qtype = "multi" then normalizeMulti expected = normalizeMulti got
  else if looksLikeMulti expected || looksLikeMulti got then
    normalizeMulti expected = normalizeMulti got
  else
    let exp := normalizeSingle expected
    if exp ≠ "" then exp = normalizeSingle got
    else pyLower expected = pyLower got

/-- The ephemeral Redis quiz-session value
`{question_ids: [...], started_at: int}` for one `(learner, quiz)` key.
Expiry from the key-value store is modelled as the value being `none`. -/
structure SessionVal where
  question_ids : List Nat
  started_at : Nat
deriving DecidableEq

/-- Helper for `_select_final_question_ids_from_lessons` (lines 150-161):
build the shuffled per-submodule pools, excluding the final submodule and
submodules without a quiz or without questions. -/
def buildPools (questions : List Question) (lastSubId : Option Nat) :
    List Submodule → Corelms.Rng → List (List Nat) × Corelms.Rng
  | [], rng => ([], rng)
  | sub :: rest, rng =>
    if lastSubId = some sub.id then buildPools questions lastSubId rest rng
    else
      match sub.quiz_id with
      | none => buildPools questions lastSubId rest rng
      | some qid =>
        let pool := sortNats ((questions.filter fun q => q.quiz_id = qid).map (·.id))
        if pool = [] then buildPools questions lastSubId rest rng
        else
          let sh := rng.shuffle pool
          let r := buildPools questions lastSubId rest sh.2
          (sh.1 :: r.1, r.2)

/-- Phase 1 of `_select_final_question_ids_from_lessons` (lines 165-170): up
to 2 questions per pool; returns the selection and the drained pools. -/
def phase1Aux : List (List Nat) → List Nat × List (List Nat)
  | [] => ([], [])
  | pool :: rest =>
    let r := phase1Aux rest
    (pool.take 2 ++ r.1, pool.drop 2 :: r.2)

/-- One `for pool in pools` pass of phase 2 (lines 175-184): take 1 from each
nonempty pool while the selection is below the floor. Returns the updated
pools, the selection, and the `progressed` flag. -/
def phase2Pass : List (List Nat) → List Nat → Nat → List (List Nat) × List Nat × Bool
  | [], selected, _ => ([], selected, false)
  | pool :: rest, selected, target =>
    if target ≤ selected.length then (pool :: rest, selected, false)
    else
      match pool with
      | [] =>
        let r := phase2Pass rest selected target
        ([] :: r.1, r.2.1, r.2.2)
      | x :: xs =>
        let r := phase2Pass rest (selected ++ [x]) target
        (xs :: r.1, r.2.1, true)

/-- The `while len(selected) < target_min` loop of phase 2. The fuel
(total pool size + 1) is enough for every run: each progressing pass moves at
least one question out of the pools. -/
def phase2Loop : Nat → List (List Nat) → List Nat → List Nat
  | 0, _, selected => selected
  | fuel + 1, pools, selected =>
    if 10 ≤ selected.length then selected
    else
      let r := phase2Pass pools selected 10
      if r.2.2 then phase2Loop fuel r.1 r.2.1
      else r.2.1

/-- `_select_final_question_ids_from_lessons` of `quizzes.py` for the
submodules of one module (the caller passes
`db.submodules.filter (·.module_id = m.id)`). Question ids are returned as
`Nat` (the Python function stringifies them). -/
def selectFinalQuestionIdsFromLessons (questions : List Question)
    (moduleSubs : List Submodule) (rng : Corelms.Rng) : List Nat × Corelms.Rng :=
  let subs := sortSubsByOrder moduleSubs
  let lastSubId := subs.getLast?.map (·.id)
  let bp := buildPools questions lastSubId subs rng
  let p1 := phase1Aux bp.1
  let selected := phase2Loop ((bp.1.map List.length).sum + 1) p1.2 p1.1
  bp.2.shuffle selected

/-- The Python-truthy variant group of a question (`None` and `""` both mean
ungrouped). -/
def vgOf (q : Question) : String := q.variant_group.getD ""

/-- The variant-group keys in first-appearance order (Python dict insertion
order of `grouped`). -/
def groupKeys (qs : List Question) : List String :=
  ((qs.map vgOf).filter fun k => k ≠ "").dedup

/-- `selected.append(random.choice(group))` for each group, in order. -/
def pickPerGroup (qs : List Question) : List String → Corelms.Rng → List Question × Corelms.Rng
  | [], rng => ([], rng)
  | k :: rest, rng =>
    let pc := rng.choice (qs.filter fun q => vgOf q = k)
    let r := pickPerGroup qs rest pc.2
    (pc.1 :: r.1, r.2)

/-- Lines 316-344 plus the response of `start_quiz`: variant-group selection
(one random member per group plus all ungrouped questions, shuffled; final
quizzes keep the full fetched set, shuffled) and the best-effort session
write (skipped when Redis is unavailable, the exception swallowed). Returns
the response question ids, the new session value and the advanced RNG. -/
def finishStart (questions : List Question) (isFinal : Bool) (redisUp : Bool)
    (sess : Option SessionVal) (now : Nat) (rng : Corelms.Rng) :
    List Nat × Option SessionVal × Corelms.Rng :=
  let sel :=
    if isFinal then rng.shuffle questions
    else
      let singles := questions.filter fun q => vgOf q = ""
      let pg := pickPerGroup questions (groupKeys questions) rng
      pg.2.shuffle (pg.1 ++ singles)
  let ids := sel.1.map (·.id)
  let sess2 := if redisUp then some (⟨ids, now⟩ : SessionVal) else sess
  (ids, sess2, sel.2)

/-- The fresh-session path of `start_quiz` (lines 286-344): final quizzes are
assembled from the lesson pools (404 when the owning module is missing, 409
when no source questions exist); other quizzes load their own questions (400
when empty). -/
def startFresh (db : Store) (quiz : Quiz) (isFinal : Bool) (redisUp : Bool)
    (sess : Option SessionVal) (now : Nat) (rng : Corelms.Rng) :
    Except Nat (List Nat × Option SessionVal × Corelms.Rng) :=
  if isFinal then
    match db.modules.find? (fun m => m.final_quiz_id = some quiz.id) with
    | none => .error 404
    | some m =>
      let sel := selectFinalQuestionIdsFromLessons db.questions
        (db.submodules.filter fun s => s.module_id = m.id) rng
      if sel.1 = [] then .error 409
      else
        let rows := sel.1.filterMap fun qid => db.questions.find? fun q => q.id = qid
        if rows = [] then .error 409
        else .ok (finishStart rows true redisUp sess now sel.2)
  else
    let questions := db.questions.filter fun q => q.quiz_id = quiz.id
    if questions = [] then .error 400
    else .ok (finishStart questions false redisUp sess now rng)

/-- `start_quiz` of `quizzes.py` for one `(learner, quiz)` session key.
`sess` is the current value at the Redis session key; `redisUp = false` models
an unreachable key-value store (both the read and the write exception are
swallowed by the code). The read-confirmation gate, rate limiting, attempt
counting and learning-event/XP side effects do not influence the selected
question ids and are outside the modelled state; the claims quantify over
requests that pass the gates. Errors are the raised HTTP status codes. -/
def start_quiz (db : Store) (quizId : Nat) (redisUp : Bool) (sess : Option SessionVal)
    (now : Nat) (rng : Corelms.Rng) :
    Except Nat (List Nat × Option SessionVal × Corelms.Rng) :=
  match db.quizzes.find? (fun q => q.id = quizId) with
  | none => .error 404
  | some quiz =>
    let isFinal := quiz.qtype = "final"
    let existingRaw := if redisUp then (if isFinal then none else sess) else none
    match existingRaw with
    | some s =>
      if s.question_ids ≠ [] then
        let ordered := s.question_ids.filterMap fun qid => db.questions.find? fun q => q.id = qid
        .ok (ordered.map (·.id), sess, rng)
      else startFresh db quiz isFinal redisUp sess now rng
    | none => startFresh db quiz isFinal redisUp sess now rng

/-- The scored result of `submit_quiz` (the persisted attempt row's fields). -/
structure SubmitRes where
  score : Nat
  passed : Bool
  correct : Nat
  total : Nat
deriving DecidableEq

/-- Python `int(round(100*correct/total))`, modelled with exact rational
rounding half-to-even (Python rounds the binary float; no claim depends on
the tie behaviour). -/
def roundScore (correct total : Nat) : Nat :=
  let n := 100 * correct
  let q := n / total
  let r := n % total
  if 2 * r < total then q
  else if total < 2 * r then q + 1
  else if q % 2 = 0 then q else q + 1

/-- `answers_by_qid.get(qid, "")` (dict comprehension: last entry wins). -/
def answersByQid (answers : List (Nat × String)) (qid : Nat) : String :=
  match (answers.filter fun a => a.1 = qid).getLast? with
  | some a => a.2
  | none => ""

/-- The scoring loop of `submit_quiz` (lines 495-503): count the correct
answers over the session's question ids (`qmap` is a dict, last entry wins). -/
def countCorrect (qmapQs : List Question) (answers : List (Nat × String)) :
    List Nat → Nat
  | [] => 0
  | qid :: rest =>
    let c := countCorrect qmapQs answers rest
    match (qmapQs.filter fun q => q.id = qid).getLast? with
    | none => c
    | some q => if isCorrectAnswer q (answersByQid answers qid) then c + 1 else c

/-- Lines 439-574 of `submit_quiz`: question-ownership validation, scoring,
attempt persistence (the returned `SubmitRes`) and session deletion. -/
def submitCore (db : Store) (quiz : Quiz) (isFinal : Bool) (redisUp : Bool)
    (sess : Option SessionVal) (question_ids : List Nat)
    (answers : List (Nat × String)) : Except Nat (SubmitRes × Option SessionVal) :=
  let fetched : Except Nat (List Question) :=
    if isFinal then
      match db.modules.find? (fun m => m.final_quiz_id = some quiz.id) with
      | none => .error 404
      | some m =>
        let subs := sortSubsByOrder (db.submodules.filter fun s => s.module_id = m.id)
        let lastSubId : Option Nat := subs.getLast?.map (·.id)
        let allowed := subs.filterMap fun s =>
          if lastSubId = some s.id then (none : Option Nat) else s.quiz_id
        if allowed = [] then .error 409
        else .ok (db.questions.filter fun q =>
          question_ids.contains q.id && allowed.contains q.quiz_id)
    else
      .ok (db.questions.filter fun q =>
        question_ids.contains q.id && q.quiz_id = quiz.id)
  match fetched with
  | .error e => .error e
  | .ok questions =>
    if (questions.map (·.id)).dedup.length ≠ question_ids.dedup.length then .error 409
    else
      let correct := countCorrect questions answers question_ids
      let total := question_ids.length
      let score := if 0 < total then roundScore correct total else 0
      let passed := decide (quiz.pass_threshold ≤ score)
      let sess2 := if redisUp then none else sess
      .ok (⟨score, passed, correct, total⟩, sess2)

/-- `submit_quiz` of `quizzes.py` for one `(learner, quiz)` session key.
When the session is absent (lost or expired) the fallback path accepts the
request-body question ids with no time-limit check; when it is present the
elapsed time is checked against the quiz's time limit (Python's falsy check
skips a `0` time limit). -/
def submit_quiz (db : Store) (quizId : Nat) (redisUp : Bool) (sess : Option SessionVal)
    (now : Nat) (answers : List (Nat × String)) :
    Except Nat (SubmitRes × Option SessionVal) :=
  match db.quizzes.find? (fun q => q.id = quizId) with
  | none => .error 404
  | some quiz =>
    let isFinal := quiz.qtype = "final"
    let raw := if redisUp then sess else none
    match raw with
    | none =>
      let question_ids := answers.map (·.1)
      if question_ids = [] then .error 409
      else submitCore db quiz isFinal redisUp sess question_ids answers
    | some s =>
      let question_ids := s.question_ids
      let timeSpent := now - s.started_at
      let reject :=
        match quiz.time_limit with
        | some tl => decide (tl ≠ 0) && decide (tl < timeSpent)
        | none => false
      if reject then .error 409
      else submitCore db quiz isFinal redisUp sess question_ids answers

end Quizzes

namespace Regen

open Corelms Db

/-- `charListStarts p s`: `s` starts with `p`. -/
def charListStarts : List Char → List Char → Bool
  | [], _ => true
  | _ :: _, [] => false
  | a :: as, b :: bs => a = b && charListStarts as bs

/-- The SQL condition `concept_tag IS NOT NULL AND concept_tag LIKE
'needs_regen:%'` of `_submodule_is_ok`. -/
def tagNeedsRegen (t : Option String) : Bool :=
  match t with
  | none => false
  | some s => charListStarts "needs_regen:".data s.data

/-- The RQ job metadata written by `_set_job_stage` / `_job_heartbeat` /
`_set_job_error` (stage-duration bookkeeping and the remaining meta fields
are observability-only and outside the modelled state). -/
structure JobMeta where
  stage : String
  detail : String
  error_code : String
deriving DecidableEq

def setStage (m : JobMeta) (stage detail : String) : JobMeta :=
  { m with stage := stage, detail := detail }

def heartbeat (m : JobMeta) (detail : String) : JobMeta :=
  { m with detail := detail }

/-- The SQLAlchemy session: `work` is the session view (pending writes
flushed), `committed` the database as of the last commit; `commit` copies
`work` into `committed`, `rollback` discards `work`. `nextId` models primary
key allocation on flush. -/
structure Sess where
  committed : Store
  work : Store
  nextId : Nat
deriving DecidableEq

def Sess.commit (s : Sess) : Sess := { s with committed := s.work }

def Sess.rollback (s : Sess) : Sess := { s with work := s.committed }

/-- The running state of one job execution: database session, job meta, and
the number of `_is_cancel_requested` reads performed so far. -/
structure RunSt where
  sess : Sess
  meta : JobMeta
  reads : Nat
deriving DecidableEq

/-- The two exceptional exits of the job body: `RegenCanceledError` raised by
a cancel checkpoint, and any other exception (`ValueError` etc.). -/
inductive JobErr where
  | canceled (st : RunSt)
  | failure (st : RunSt)
deriving DecidableEq

/-- `_cancel_checkpoint` of `quiz_regeneration_jobs.py` (lines 97-101):
read the cancel flag (`flag` gives the value returned by the `k`-th read of
the run); when set, record stage `canceled` and raise `RegenCanceledError`. -/
def cancelCheckpoint (flag : Nat → Bool) (stage : String) (st : RunSt) : Except JobErr RunSt :=
  let b := flag st.reads
  let st2 := { st with reads := st.reads + 1 }
  if b then .error (.canceled { st2 with meta := setStage st2.meta "canceled" (stage ++ ": cancel") })
  else .ok st2

/-- `_submodule_is_ok` of `quiz_regeneration_jobs.py` (lines 127-137) against
the session view. -/
def submoduleIsOk (work : Store) (sub : Submodule) (targetQuestions : Nat) : Bool :=
  match sub.quiz_id with
  | none => false
  | some qid =>
    let needs := (work.questions.filter fun q => q.quiz_id = qid && tagNeedsRegen q.concept_tag).length
    let total := (work.questions.filter fun q => q.quiz_id = qid).length
    needs = 0 && targetQuestions ≤ total

/-- The question-type coercion of the write loop (lines 625-631). -/
def questionTypeOf (raw : String) : String :=
  let t := pyLower (pyStrip raw)
  if t = "multi" then "multi" else if t = "case" then "case" else "single"

/-- The `concept_tag` of a written question (lines 640-644, module job). -/
def conceptTag (usedHeuristic aiFailed : Bool) (mId subOrder qi : Nat) : String :=
  if usedHeuristic then
    "heur:" ++ toString mId ++ ":" ++ toString subOrder ++ ":" ++ toString qi
  else if aiFailed then
    "needs_regen:regen:" ++ toString mId ++ ":" ++ toString subOrder ++ ":" ++ toString qi
  else "regen:" ++ toString mId ++ ":" ++ toString subOrder ++ ":" ++ toString qi

/-- The `concept_tag` of the hard-coded fallback question (lines 665-667). -/
def fallbackTag (aiFailed : Bool) (mId subOrder : Nat) : String :=
  if aiFailed then
    "needs_regen:regen:fallback:" ++ toString mId ++ ":" ++ toString subOrder ++ ":1"
  else "regen:fallback:" ++ toString mId ++ ":" ++ toString subOrder ++ ":1"

/-- The `_Q` adapter of lines 592-604: heuristic `MCQ`s as provider-shaped
question objects (`explanation = None`, modelled as `""`). -/
def mcqToGenQ (m : QuizGen.MCQ) : LlmHandler.GenQ :=
  ⟨m.qtype, m.prompt, m.correct_answer, ""⟩

/-- One `Question` row insert of the write loop (lines 632-647). -/
def mkQuestionRow (qid : Nat) (newQuizId : Nat) (q : LlmHandler.GenQ)
    (usedHeuristic aiFailed : Bool) (mId subOrder qi : Nat) : Question :=
  { id := qid
    quiz_id := newQuizId
    qtype := questionTypeOf q.qtype
    prompt := q.prompt
    correct_answer := q.correct_answer
    explanation := if q.explanation = "" then none else some q.explanation
    concept_tag := some (conceptTag usedHeuristic aiFailed mId subOrder qi)
    variant_group := none }

/-- The hard-coded fallback `Question` row (lines 654-670). -/
def mkFallbackRow (qid : Nat) (newQuizId : Nat) (title : String) (aiFailed : Bool)
    (mId subOrder : Nat) : Question :=
  { id := qid
    quiz_id := newQuizId
    qtype := "single"
    prompt := "По уроку «" ++ title ++ "» выберите верный вариант.\n" ++
      "A) Подтвердить прочтение и пройти квиз\nB) Пропустить урок\nC) Завершить модуль без проверки\nD) Ничего не делать"
    correct_answer := "A"
    explanation := none
    concept_tag := some (fallbackTag aiFailed mId subOrder)
    variant_group := none }

/-- The write phase of one lesson (lines 611-677): create the versioned
`Quiz` row, re-point the submodule, and insert the new questions (or the
fallback question) under the new quiz id. Old rows are never deleted or
updated. -/
def writeLesson (st : RunSt) (sub : Submodule) (m : Module)
    (qs : List LlmHandler.GenQ) (usedHeuristic aiFailed : Bool) (title : String) : RunSt :=
  let s := st.sess
  let newQuizId := s.nextId
  let lessonQuiz : Quiz :=
    { id := newQuizId
      qtype := "submodule"
      pass_threshold := 70
      time_limit := none
      attempts_limit := 3 }
  let work1 := { s.work with
    quizzes := s.work.quizzes ++ [lessonQuiz]
    submodules := (s.work.submodules.map fun (x : Submodule) =>
      if x.id = sub.id then { x with quiz_id := some newQuizId } else x) }
  let newRows :=
    if qs ≠ [] then
      (qs.enum.map fun p =>
        mkQuestionRow (s.nextId + 1 + p.1) newQuizId p.2 usedHeuristic aiFailed m.id sub.order (p.1 + 1))
    else
      [mkFallbackRow (s.nextId + 1) newQuizId title aiFailed m.id sub.order]
  let work2 := { work1 with questions := work1.questions ++ newRows }
  { st with sess := { s with work := work2, nextId := s.nextId + 1 + newRows.length } }

/-- `str(sub.title or f"Урок {si}")`. -/
def lessonTitleOf (sub : Submodule) (si : Nat) : String :=
  if sub.title = "" then "Урок " ++ toString si else sub.title

/-- The AI-failure branch of one lesson (lines 552-606): under `force_ai`
record the error and raise; otherwise fall back to the heuristic generator
(`rngOf si` is the PRNG stream of its `random.Random(seed)`), adapting its
`MCQ`s through the `_Q` shim. Returns the state, the questions to write and
the `used_heuristic` / `ai_failed` flags. -/
def lessonFallback (rngOf : Nat → Rng) (forceAi : Bool) (si nSubs : Nat)
    (title text : String) (qs0 : List LlmHandler.GenQ) (st : RunSt) :
    Except JobErr (RunSt × List LlmHandler.GenQ × Bool × Bool) :=
  if qs0 = [] then
    let st := { st with meta := (setStage st.meta "fallback"
      (toString si ++ "/" ++ toString nSubs ++ ": fallback")) }
    if forceAi then
      .error (.failure { st with meta :=
        ({ (setStage st.meta "failed"
          ("AI failed: " ++ toString si ++ "/" ++ toString nSubs ++ ": " ++ title))
          with error_code := "AI_FORMAT_INVALID" }) })
    else
      let generated := QuizGen.generate_quiz_questions_heuristic (rngOf si) title text 5
      if generated ≠ [] then .ok (st, generated.map mcqToGenQ, true, true)
      else .ok (st, [], false, true)
  else .ok (st, qs0, false, false)

/-- The write phase of one lesson (lines 608-678): stage `replace`, a cancel
checkpoint, then the versioned write. -/
def lessonWrite (flag : Nat → Bool) (m : Module) (sub : Submodule) (si nSubs : Nat)
    (title : String) (qs : List LlmHandler.GenQ) (usedHeuristic aiFailed : Bool)
    (st : RunSt) : Except JobErr RunSt := do
  let st := { st with meta :=
    (setStage st.meta "replace" (toString si ++ "/" ++ toString nSubs ++ ": " ++ title)) }
  let st ← cancelCheckpoint flag "replace" st
  let st := { st with meta := (heartbeat st.meta
    ("WRITE " ++ toString si ++ "/" ++ toString nSubs ++ ": " ++ title)) }
  let st := writeLesson st sub m qs usedHeuristic aiFailed title
  return { st with meta := (heartbeat st.meta
    ("DONE " ++ toString si ++ "/" ++ toString nSubs ++ ": " ++ title)) }

/-- One iteration of the per-lesson loop of `regenerate_module_quizzes_job`
(lines 496-678). `si` is the 1-based lesson index; `ai si` is the outcome of
the `generate_quiz_questions_ai` call for this lesson (validated questions
and elapsed wall-clock seconds — an oracle: the claims hold for every
provider behaviour). -/
def processLesson (flag : Nat → Bool) (ai : Nat → List LlmHandler.GenQ × Nat)
    (rngOf : Nat → Rng) (onlyMissing forceAi : Bool) (m : Module) (nSubs : Nat)
    (si : Nat) (sub : Submodule) (st : RunSt) : Except JobErr RunSt := do
  let st ← cancelCheckpoint flag "lesson" st
  let title := lessonTitleOf sub si
  let text := sub.content
  if onlyMissing && submoduleIsOk st.sess.work sub 5 then
    return { st with meta := (heartbeat
      (setStage st.meta "skip" (toString si ++ "/" ++ toString nSubs ++ ": " ++ title))
      ("SKIP " ++ toString si ++ "/" ++ toString nSubs ++ ": " ++ title)) }
  else
    let st := { st with meta := (heartbeat
      (setStage st.meta "ai" (toString si ++ "/" ++ toString nSubs ++ ": " ++ title))
      ("AI " ++ toString si ++ "/" ++ toString nSubs ++ ": " ++ title)) }
    let out := ai si
    let qs0 := if 55 < out.2 then [] else out.1
    let st ← cancelCheckpoint flag "ai" st
    match lessonFallback rngOf forceAi si nSubs title text qs0 st with
    | .error e => .error e
    | .ok (st2, qs, usedHeuristic, aiFailed) =>
      lessonWrite flag m sub si nSubs title qs usedHeuristic aiFailed st2

/-- The `for si, sub in enumerate(subs, start=1)` loop. -/
def lessonLoop (flag : Nat → Bool) (ai : Nat → List LlmHandler.GenQ × Nat)
    (rngOf : Nat → Rng) (onlyMissing forceAi : Bool) (m : Module) (nSubs : Nat) :
    Nat → List Submodule → RunSt → Except JobErr RunSt
  | _, [], st => .ok st
  | si, sub :: rest, st => do
    let st ← processLesson flag ai rngOf onlyMissing forceAi m nSubs si sub st
    lessonLoop flag ai rngOf onlyMissing forceAi m nSubs (si + 1) rest st

/-- The body of `regenerate_module_quizzes_job` (the `try` block,
lines 439-714). -/
def regenJobBody (flag : Nat → Bool) (ai : Nat → List LlmHandler.GenQ × Nat)
    (rngOf : Nat → Rng) (onlyMissing forceAi : Bool) (moduleId : Nat)
    (st : RunSt) : Except JobErr RunSt := do
  let st := { st with meta := setStage st.meta "start" (toString moduleId) }
  match st.sess.work.modules.find? (fun m => m.id = moduleId) with
  | none =>
    .error (.failure { st with meta :=
      ({ (setStage st.meta "failed" "module not found") with error_code := "MODULE_NOT_FOUND" }) })
  | some m => do
    let subs := sortSubsByOrder (st.sess.work.submodules.filter fun s => s.module_id = m.id)
    let st := { st with meta := setStage st.meta "load" ("lessons: " ++ toString subs.length) }
    let st ← cancelCheckpoint flag "load" st
    let st ← lessonLoop flag ai rngOf onlyMissing forceAi m subs.length 1 subs st
    let st := { st with meta := setStage st.meta "commit" st.meta.detail }
    let st ← cancelCheckpoint flag "commit" st
    let st := { st with sess := st.sess.commit }
    return { st with meta := setStage st.meta "done" (toString m.id) }

/-- The three terminal outcomes of `regenerate_module_quizzes_job`: the
report dict (`ok: True`), the cancellation dict
`{ok: False, canceled: True, module_id: ...}`, and a re-raised exception. -/
inductive RegenResult where
  | report
  | canceled (moduleId : Nat)
  | raised
deriving DecidableEq

/-- `regenerate_module_quizzes_job` of `quiz_regeneration_jobs.py`:
run the body; on `RegenCanceledError` roll back and return
`{ok: False, canceled: True}`; on any other exception roll back, record the
failure and re-raise. Returns the outcome and the final run state. -/
def regenerate_module_quizzes_job (flag : Nat → Bool)
    (ai : Nat → List LlmHandler.GenQ × Nat) (rngOf : Nat → Rng)
    (onlyMissing forceAi : Bool) (moduleId : Nat) (db0 : Store) (nextId0 : Nat)
    (meta0 : JobMeta) : RegenResult × RunSt :=
  match regenJobBody flag ai rngOf onlyMissing forceAi moduleId ⟨⟨db0, db0, nextId0⟩, meta0, 0⟩ with
  | .ok st => (.report, st)
  | .error (.canceled st) => (.canceled moduleId, { st with sess := st.sess.rollback })
  | .error (.failure st) =>
    (.raised, { st with
      sess := st.sess.rollback
      meta := setStage st.meta "failed" st.meta.detail })

end Regen

namespace AdminR

open Corelms

/-- Redis `get` over an association-list model of the key-value store. -/
def kvGet (kv : List (String × String)) (k : String) : Option String :=
  (kv.find? fun p => p.1 = k).map (·.2)

/-- Redis `set` (TTLs are observability of expiry, modelled by key removal
elsewhere). -/
def kvSet (kv : List (String × String)) (k v : String) : List (String × String) :=
  (k, v) :: kv.filter fun p => p.1 ≠ k

/-- The state touched by `enqueue_import_zip` (`admin.py` lines 1434-1629):
the Redis locks, the committed module titles (lower-cased, for the duplicate
title check), the queue, and the id the queue will give the next job.
`redisUp = false` models an unreachable store (every Redis `try` block
swallows the failure). -/
structure EnqSt where
  redisUp : Bool
  kv : List (String × String)
  moduleTitlesLower : List String
  queue : List String
  nextJobId : Nat
deriving DecidableEq

/-- The refusals of `enqueue_import_zip` (each is a raised `HTTPException`;
conflicts carry the job id included in the detail string). -/
inductive EnqErr where
  | missingObjectKey
  | conflictObjectKey (jobId : String)
  | conflictFingerprint (jobId : String)
  | conflictTitleExists
  | conflictTitleEnqueued (jobId : String)
  | zipNotFound
deriving DecidableEq

def okLockKey (objectKey : String) : String :=
  "admin:import_enqueued_by_object_key:" ++ objectKey

def fpLockKey (fingerprint : String) : String :=
  "admin:import_enqueued_by_fingerprint:" ++ fingerprint

def titleLockKey (normTitle : String) : String :=
  "admin:import_enqueued_by_title:" ++ normTitle

/-- `str(r.get(k) or "").strip()` — the stored job id, empty when absent. -/
def lockValue (st : EnqSt) (k : String) : String :=
  if st.redisUp then pyStrip ((kvGet st.kv k).getD "") else ""

/-- `s` ends with `suf` (on code points). -/
def strEndsWith (suf s : String) : Bool :=
  Regen.charListStarts suf.data.reverse s.data.reverse

/-- The stub-module title of lines 1498-1502. -/
def stubTitleOf (title sourceFilename : String) : String :=
  let t0 := if title ≠ "" then title
    else if pyStrip sourceFilename ≠ "" then pyStrip sourceFilename else "Модуль"
  let t1 := if strEndsWith ".zip" (pyLower t0) then String.mk (t0.data.take (t0.data.length - 4)) else t0
  if pyStrip t1 = "" then "Модуль" else pyStrip t1

/-- `enqueue_import_zip` of `admin.py`. `fingerprint` abstracts the S3
`head_object` etag/size pair (`""` when the head call failed or either field
was empty). Returns the outcome (job id of the new job, or the refusal) and
the post-request state: a refusal leaves the state unchanged (the stub
module flushed before a title-lock conflict is rolled back with the request
transaction). The audit log and the `admin:import_jobs` history list are
observability-only and outside the modelled state. -/
def enqueue_import_zip (st : EnqSt) (objectKey0 : String) (fingerprint : String)
    (title0 sourceFilename0 : Option String) : Except EnqErr String × EnqSt :=
  let objectKey := pyStrip objectKey0
  if objectKey = "" then (.error .missingObjectKey, st)
  else
    let okVal := lockValue st (okLockKey objectKey)
    if okVal ≠ "" then (.error (.conflictObjectKey okVal), st)
    else
      let fpVal := if fingerprint ≠ "" then lockValue st (fpLockKey fingerprint) else ""
      if fpVal ≠ "" then (.error (.conflictFingerprint fpVal), st)
      else
        let title := pyStrip (title0.getD "")
        let normTitle := pyLower (pyClean title)
        if title ≠ "" ∧ pyLower title ∈ st.moduleTitlesLower then
          (.error .conflictTitleExists, st)
        else
          let titleVal := if normTitle ≠ "" then lockValue st (titleLockKey normTitle) else ""
          if titleVal ≠ "" then (.error (.conflictTitleEnqueued titleVal), st)
          else if fingerprint = "" then (.error .zipNotFound, st)
          else
            let jobId := "job-" ++ toString st.nextJobId
            let stubTitleLower := pyLower (stubTitleOf title (pyStrip (sourceFilename0.getD "")))
            let kv2 :=
              if st.redisUp then
                let kvA := kvSet st.kv (okLockKey objectKey) jobId
                let kvB := if normTitle ≠ "" then kvSet kvA (titleLockKey normTitle) jobId else kvA
                kvSet kvB (fpLockKey fingerprint) jobId
              else st.kv
            (.ok jobId,
              { st with
                kv := kv2
                moduleTitlesLower := st.moduleTitlesLower ++ [stubTitleLower]
                queue := st.queue ++ [jobId]
                nextJobId := st.nextJobId + 1 })

end AdminR

deriving instance DecidableEq for Except

namespace Examples

open Corelms LlmHandler

/-- A well-formed four-option prompt, parameterised to keep prompts distinct. -/
def exPrompt (tag : String) : String :=
  "Какой вариант правильный из перечисленных (" ++ tag ++
    ")?\nA) альфа один\nB) бета два\nC) гамма три\nD) дельта четыре"

def qA1 : GenQ := ⟨"single", exPrompt "один", "A", "потому что так написано"⟩
def qA2 : GenQ := ⟨"single", exPrompt "два", "A", "потому что так написано"⟩
def qA3 : GenQ := ⟨"single", exPrompt "три", "A", "потому что так написано"⟩
def qB4 : GenQ := ⟨"single", exPrompt "четыре", "B", "потому что так написано"⟩

/-- Four valid candidates answered A, A, A, B: three share the letter `A`. -/
def batchAAAB : List GenQ := [qA1, qA2, qA3, qB4]

/-- Three valid candidates all answered `A`. -/
def batchAAA : List GenQ := [qA1, qA2, qA3]

/-- A multi-choice candidate whose correct answer is `"A,A"`: two parts, one
distinct letter. -/
def qMultiAA : GenQ := ⟨"multi", exPrompt "мульти", "A,A", "потому что так написано"⟩

end Examples

namespace Examples

/-- A non-final quiz with a 60-second time limit. -/
def quizC1 : Db.Quiz :=
  { id := 1, qtype := "submodule", pass_threshold := 70, time_limit := some 60, attempts_limit := 3 }

def qRow10 : Db.Question :=
  { id := 10, quiz_id := 1, qtype := "single",
    prompt := "Вопрос первый?\nA) один\nB) два\nC) три\nD) четыре",
    correct_answer := "A", explanation := none, concept_tag := none, variant_group := none }

def qRow11 : Db.Question :=
  { id := 11, quiz_id := 1, qtype := "single",
    prompt := "Вопрос второй?\nA) один\nB) два\nC) три\nD) четыре",
    correct_answer := "B", explanation := none, concept_tag := none, variant_group := none }

/-- A store with one timed quiz holding two questions. -/
def dbC1 : Db.Store :=
  { modules := [], submodules := [], quizzes := [quizC1], questions := [qRow10, qRow11] }

end Examples

namespace Examples

/-- One lesson submodule with a quiz. -/
def lessonSub (i qzId : Nat) : Db.Submodule :=
  { id := 30 + i, module_id := 3, order := i, title := "Урок", content := "", quiz_id := some qzId }

/-- The terminal final-test submodule (highest order, no own quiz). -/
def finSubC6 : Db.Submodule :=
  { id := 36, module_id := 3, order := 6, title := "Финал", content := "", quiz_id := none }

def lessonsC6 : List Db.Submodule :=
  [lessonSub 1 41, lessonSub 2 42, lessonSub 3 43, lessonSub 4 44, lessonSub 5 45]

def subsC6 : List Db.Submodule := lessonsC6 ++ [finSubC6]

def qRowFor (qid qzId : Nat) : Db.Question :=
  { id := qid, quiz_id := qzId, qtype := "single", prompt := "Вопрос?",
    correct_answer := "A", explanation := none, concept_tag := none, variant_group := none }

/-- Two questions per lesson quiz (41-45). -/
def questionsC6 : List Db.Question :=
  [qRowFor 100 41, qRowFor 101 41, qRowFor 102 42, qRowFor 103 42, qRowFor 104 43,
   qRowFor 105 43, qRowFor 106 44, qRowFor 107 44, qRowFor 108 45, qRowFor 109 45]

def finalQuizC6 : Db.Quiz :=
  { id := 50, qtype := "final", pass_threshold := 70, time_limit := none, attempts_limit := 3 }

def moduleC6 : Db.Module := { id := 3, title := "Модуль", final_quiz_id := some 50 }

/-- A module whose lesson quizzes hold no questions at all. -/
def dbC6empty : Db.Store :=
  { modules := [moduleC6], submodules := subsC6, quizzes := [finalQuizC6], questions := [] }

end Examples

namespace Examples

/-- State after an earlier enqueue of fingerprint `etag:123` as `job-7`. -/
def enqStC9 : AdminR.EnqSt :=
  { redisUp := true
    kv := [(AdminR.fpLockKey "etag:123", "job-7")]
    moduleTitlesLower := []
    queue := ["job-7"]
    nextJobId := 8 }

end Examples

namespace ExamplesR

open Corelms Db Regen LlmHandler

/-- A one-module database with one lesson whose current quiz 7 holds one
question row (id 8), and primary-key watermark 100. -/
def dbR : Store :=
  { modules := [⟨1, "Модуль", none⟩]
    submodules := [⟨2, 1, 1, "Тема", "", some 7⟩]
    quizzes := [⟨7, "submodule", 70, none, 3⟩]
    questions := [⟨8, 7, "single", "старый вопрос", "A", none, none, none⟩] }

/-- An AI oracle that returns one valid question instantly. -/
def aiR : Nat → List GenQ × Nat :=
  fun _ => ([⟨"single", "Вопрос?\nA) а\nB) б\nC) в\nD) г", "A", ""⟩], 0)

/-- A PRNG stream (unused on the AI-success path). -/
def rngR : Nat → Rng := fun _ => ⟨fun _ => 0, 0⟩

def metaR : JobMeta := ⟨"", "", ""⟩

/-- The run used by the cancellation witness: the flag is set from the
start, so the first checkpoint (stage `load`) observes it. -/
def runC7 : RegenResult × RunSt :=
  regenerate_module_quizzes_job (fun _ => true) aiR rngR false false 1 dbR 100 metaR

/-- The run used by the history-preservation witness: the flag is never
set and the AI oracle succeeds, so the lesson is rewritten and committed. -/
def runC8 : RegenResult × RunSt :=
  regenerate_module_quizzes_job (fun _ => false) aiR rngR false false 1 dbR 100 metaR

end ExamplesR

namespace Lemmas7

open Corelms Db Regen

/-- All cancel-flag reads performed between two run states returned false. -/
def CleanReads (flag : Nat → Bool) (st st2 : RunSt) : Prop :=
  st.reads ≤ st2.reads ∧ ∀ k, st.reads ≤ k → k < st2.reads → flag k = false

/-- The write-phase invariant of the regeneration job: the session view only
ever appends quiz and question rows, every new row lives under a quiz id at
or above the fresh-id watermark `nextId0`, and submodules are at most
re-pointed to such a fresh quiz. -/
def RegenInv (db0 : Store) (nextId0 : Nat) (s : Sess) : Prop :=
  (∃ e, s.work.quizzes = db0.quizzes ++ e) ∧
  (∃ e, s.work.questions = db0.questions ++ e) ∧
  (∀ qz ∈ s.work.quizzes, qz.id < s.nextId) ∧
  nextId0 ≤ s.nextId ∧
  (∀ q ∈ s.work.questions, q ∉ db0.questions →
    nextId0 ≤ q.quiz_id ∧ ∃ qz ∈ s.work.quizzes, qz.id = q.quiz_id) ∧
  (∀ sub2 ∈ s.work.submodules, ∃ sub ∈ db0.submodules, sub2.id = sub.id ∧
    (sub2 = sub ∨ ∃ nqid, sub2 = { sub with quiz_id := some nqid } ∧
      nextId0 ≤ nqid ∧ ∃ qz ∈ s.work.quizzes, qz.id = nqid))

/-- The per-step contract of the job body: successful and failing steps only
perform clean (false) flag reads and never commit; a cancellation exit
carries stage `canceled` and an uncommitted session. -/
def StepSpec (flag : Nat → Bool) (db0 : Store) (nextId0 : Nat)
    (x : Except JobErr RunSt) (st : RunSt) : Prop :=
  (∀ st2, x = .ok st2 → st2.sess.committed = st.sess.committed ∧ CleanReads flag st st2 ∧
    (RegenInv db0 nextId0 st.sess → RegenInv db0 nextId0 st2.sess)) ∧
  (∀ st2, x = .error (.canceled st2) → st2.sess.committed = st.sess.committed ∧
    st2.meta.stage = "canceled" ∧ st.reads ≤ st2.reads) ∧
  (∀ st2, x = .error (.failure st2) → st2.sess.committed = st.sess.committed ∧
    CleanReads flag st st2)

/-- Contract of the whole `try` body: a successful run performed only clean
flag reads and ends with the invariant-satisfying working view committed; a
cancellation exit carries stage `canceled` and an untouched committed store;
any other failure leaves the committed store untouched. -/
def BodySpec (flag : Nat → Bool) (db0 : Store) (nextId0 : Nat)
    (x : Except JobErr RunSt) (st : RunSt) : Prop :=
  (∀ st2, x = .ok st2 → CleanReads flag st st2 ∧
    (RegenInv db0 nextId0 st.sess →
      RegenInv db0 nextId0 st2.sess ∧ st2.sess.committed = st2.sess.work)) ∧
  (∀ st2, x = .error (.canceled st2) → st2.sess.committed = st.sess.committed ∧
    st2.meta.stage = "canceled" ∧ st.reads ≤ st2.reads) ∧
  (∀ st2, x = .error (.failure st2) → st2.sess.committed = st.sess.committed ∧
    CleanReads flag st st2)

end Lemmas7

namespace Lemmas

open Corelms LlmHandler

/-- A list whose elements are pairwise equal has at most one distinct value. -/
theorem dedup_length_le_one_of_all_eq {l : List String}
    (hall : ∀ x ∈ l, ∀ y ∈ l, x = y) : l.dedup.length ≤ 1 := by
  match hd : l.dedup with
  | [] => simp
  | [a] => simp
  | a :: b :: t =>
    have ha : a ∈ l := List.mem_dedup.mp (by rw [hd]; exact List.mem_cons_self _ _)
    have hb : b ∈ l := List.mem_dedup.mp (by rw [hd]; simp)
    have hnd := List.nodup_dedup l
    rw [hd] at hnd
    have hab : a ≠ b := by
      intro h
      subst h
      exact (List.nodup_cons.mp hnd).1 (List.mem_cons_self _ _)
    exact absurd (hall a ha b hb) hab

end Lemmas

/-- C3: the code discards a batch as degenerate only when ALL nonempty
correct-answer letters coincide, not whenever some 3 valid questions share a
letter: `batchAAAB` consists of 4 candidates accepted by the validator, 3 of
them answered `A`, yet the degeneracy step returns the batch unchanged. -/
theorem c3_counterexample :
    LlmHandler.filterQuestions Examples.batchAAAB 4 = Examples.batchAAAB ∧
    3 ≤ (Examples.batchAAAB.filter
      fun q => LlmHandler.answerLetterOf q = some "A").length ∧
    LlmHandler.applyDegeneracyCheck Examples.batchAAAB = Examples.batchAAAB ∧
    Examples.batchAAAB ≠ [] := by decide

/-- C3 (amended): if a batch contains at least 3 questions with a nonempty
cleaned correct answer and ALL such first letters are identical, the whole
batch is discarded by the degeneracy step of `generate_quiz_questions_ai`. -/
theorem c3_degenerate_batch_discarded (valid : List LlmHandler.GenQ)
    (h3 : 3 ≤ (LlmHandler.answerLetters valid).length)
    (hall : ∀ x ∈ LlmHandler.answerLetters valid,
      ∀ y ∈ LlmHandler.answerLetters valid, x = y) :
    LlmHandler.applyDegeneracyCheck valid = [] := by
  have hlen : 3 ≤ valid.length := by
    calc 3 ≤ (LlmHandler.answerLetters valid).length := h3
    _ ≤ valid.length := List.length_filterMap_le _ _
  have hne : valid ≠ [] := by
    intro h
    subst h
    simp at hlen
  have hdeg : LlmHandler.isDegenerate valid = true := by
    unfold LlmHandler.isDegenerate
    rw [if_neg (by omega)]
    simp only
    rw [if_neg (by omega)]
    exact decide_eq_true (Lemmas.dedup_length_le_one_of_all_eq hall)
  unfold LlmHandler.applyDegeneracyCheck
  rw [if_pos ⟨hne, hdeg⟩]

/-- Witness for `c3_degenerate_batch_discarded`: three valid candidates all
answered `A` are discarded. -/
theorem c3_degenerate_batch_discarded_witness :
    LlmHandler.applyDegeneracyCheck Examples.batchAAA = [] :=
  c3_degenerate_batch_discarded Examples.batchAAA (by decide) (by decide)

namespace Lemmas2

/-- `_extract_abcd_options` returns exactly the four labelled option texts. -/
theorem extractAbcdOptions_length {p : String} {opts : List String}
    (h : LlmHandler.extractAbcdOptions p = some opts) : opts.length = 4 := by
  simp only [LlmHandler.extractAbcdOptions] at h
  split at h
  · exact absurd h (by simp)
  · split at h
    · simp only [Option.some.injEq] at h
      rw [← h]
      rfl
    · exact absurd h (by simp)

end Lemmas2

/-- C4 (amended): every candidate accepted by `_is_valid_question` has
exactly 4 parsed options that are distinct after normalisation and at least
2 characters long; a single-choice (or `case`) candidate's correct answer
resolves to exactly one of the letters `A`-`D`; a multi-choice candidate's
correct answer parses into at least 2 comma-separated letters, each one of
`A`-`D` — but the letters need not be distinct. -/
theorem c4_validator_sound (q : LlmHandler.GenQ) (seen : List String)
    (h : (LlmHandler.isValidQuestion q seen).1 = true) :
    ∃ opts, LlmHandler.extractAbcdOptions (Corelms.pyStrip q.prompt) = some opts ∧
      opts.length = 4 ∧
      ((opts.map fun o => Corelms.pyLower (Corelms.pyClean o)).filter
        (fun o => o ≠ "")).dedup.length = 4 ∧
      (∀ o ∈ opts.map (fun o => Corelms.pyLower (Corelms.pyClean o)), 2 ≤ o.length) ∧
      (LlmHandler.rawTypeOf q = "multi" →
        2 ≤ (LlmHandler.multiParts (Corelms.pyClean q.correct_answer)).length ∧
        ∀ p ∈ LlmHandler.multiParts (Corelms.pyClean q.correct_answer),
          p ∈ (["A", "B", "C", "D"] : List String)) ∧
      (LlmHandler.rawTypeOf q ≠ "multi" →
        LlmHandler.normCorrectAnswer (Corelms.pyClean q.correct_answer)
          ∈ (["A", "B", "C", "D"] : List String)) := by
  simp only [LlmHandler.isValidQuestion] at h
  split at h
  · simp at h
  rename_i h1
  split at h
  · simp at h
  rename_i h2
  split at h
  · simp at h
  rename_i h3
  split at h
  · simp at h
  rename_i opts hopts
  split at h
  · simp at h
  rename_i h4
  split at h
  · simp at h
  rename_i h5
  have hlen2 : ∀ o ∈ opts.map (fun o => Corelms.pyLower (Corelms.pyClean o)), 2 ≤ o.length := by
    intro o ho
    by_contra hc
    exact h5 (List.any_eq_true.mpr ⟨o, ho, by simp only [decide_eq_true_eq]; omega⟩)
  split at h
  · rename_i hm
    split at h
    · simp at h
    rename_i hok
    split at h
    · simp at h
    rename_i hexp
    cases hb : (decide (2 ≤ (LlmHandler.multiParts (Corelms.pyClean q.correct_answer)).length) &&
          (LlmHandler.multiParts (Corelms.pyClean q.correct_answer)).all
            (fun p => decide (p ∈ (["A", "B", "C", "D"] : List String))))
    case false => exact absurd (by rw [hb]; rfl) hok
    case true =>
      rw [Bool.and_eq_true] at hb
      refine ⟨opts, hopts, Lemmas2.extractAbcdOptions_length hopts, by simpa using h4, hlen2, ?_, ?_⟩
      · intro _
        refine ⟨of_decide_eq_true hb.1, ?_⟩
        intro p hp
        exact of_decide_eq_true (List.all_eq_true.mp hb.2 p hp)
      · intro hne
        exact absurd hm hne
  · rename_i hm
    split at h
    · simp at h
    rename_i hok
    split at h
    · simp at h
    rename_i hexp
    refine ⟨opts, hopts, Lemmas2.extractAbcdOptions_length hopts, by simpa using h4, hlen2, ?_, ?_⟩
    · intro hmm
      exact absurd hmm hm
    · intro _
      cases hb : (decide (LlmHandler.normCorrectAnswer (Corelms.pyClean q.correct_answer)
            ∈ (["A", "B", "C", "D"] : List String)))
      case false => exact absurd (by rw [hb]; rfl) hok
      case true => exact of_decide_eq_true hb

/-- Witness for `c4_validator_sound` at the concrete accepted candidate
`qA1`. -/
theorem c4_validator_sound_witness :
    (LlmHandler.isValidQuestion Examples.qA1 []).1 = true ∧
    (∃ opts, LlmHandler.extractAbcdOptions (Corelms.pyStrip Examples.qA1.prompt) = some opts ∧
      opts.length = 4 ∧
      ((opts.map fun o => Corelms.pyLower (Corelms.pyClean o)).filter
        (fun o => o ≠ "")).dedup.length = 4 ∧
      (∀ o ∈ opts.map (fun o => Corelms.pyLower (Corelms.pyClean o)), 2 ≤ o.length) ∧
      (LlmHandler.rawTypeOf Examples.qA1 = "multi" →
        2 ≤ (LlmHandler.multiParts (Corelms.pyClean Examples.qA1.correct_answer)).length ∧
        ∀ p ∈ LlmHandler.multiParts (Corelms.pyClean Examples.qA1.correct_answer),
          p ∈ (["A", "B", "C", "D"] : List String)) ∧
      (LlmHandler.rawTypeOf Examples.qA1 ≠ "multi" →
        LlmHandler.normCorrectAnswer (Corelms.pyClean Examples.qA1.correct_answer)
          ∈ (["A", "B", "C", "D"] : List String))) :=
  ⟨by decide, c4_validator_sound Examples.qA1 [] (by decide)⟩

/-- C4: the multi-choice clause of the claim is false on the code: the
candidate `qMultiAA` (correct answer `"A,A"`) is accepted by
`_is_valid_question` although its answer resolves to a single distinct
option letter. -/
theorem c4_counterexample :
    (LlmHandler.isValidQuestion Examples.qMultiAA []).1 = true ∧
    LlmHandler.rawTypeOf Examples.qMultiAA = "multi" ∧
    (LlmHandler.multiParts (Corelms.pyClean Examples.qMultiAA.correct_answer)).dedup.length = 1 := by
  decide

/-- Each iteration of the heuristic generation loop appends exactly one
question (generated or fallback). -/
theorem heuristicLoop_length (title : String) (facts : List String) :
    ∀ (k n : Nat) (rng : Corelms.Rng) (acc : List QuizGen.MCQ),
      (QuizGen.heuristicLoop title facts k n rng acc).length = k + acc.length := by
  intro k
  induction k with
  | zero =>
    intro n rng acc
    simp [QuizGen.heuristicLoop]
  | succ k ih =>
    intro n rng acc
    unfold QuizGen.heuristicLoop
    split <;> (simp only []; split) <;>
      (rw [ih]; simp only [List.length_cons]; omega)

/-- C5 (amended): for every title, lesson text (including `""`), seed stream
and requested count `target ≥ 1`, the heuristic generator returns exactly
`target` questions (it is a total function, so it raises no exception). For
`target ≤ 0` it returns 1 question, not 0 (see `c5_counterexample`). -/
theorem c5_heuristic_exact_count (rng : Corelms.Rng) (title text : String) (target : Int)
    (h : 1 ≤ target) :
    (QuizGen.generate_quiz_questions_heuristic rng title text target).length = target.toNat := by
  have hne : ¬(target = 0) := by omega
  simp only [QuizGen.generate_quiz_questions_heuristic, if_neg hne, max_eq_right h]
  rw [List.length_take, heuristicLoop_length]
  simp

/-- Witness for `c5_heuristic_exact_count` at `target = 5`. -/
theorem c5_heuristic_exact_count_witness :
    (1 : Int) ≤ 5 ∧
    (QuizGen.generate_quiz_questions_heuristic ⟨fun _ => 0, 0⟩ "Урок" "Текст урока." 5).length
      = (5 : Int).toNat :=
  ⟨by decide, c5_heuristic_exact_count ⟨fun _ => 0, 0⟩ "Урок" "Текст урока." 5 (by decide)⟩

/-- C5: the claim fails at `target = 0`: `want = max(1, int(target or 1))`
forces at least one question, so the generator returns 1 question, not the
requested 0. -/
theorem c5_counterexample :
    (QuizGen.generate_quiz_questions_heuristic ⟨fun _ => 0, 0⟩ "Урок" "" 0).length = 1 ∧
    ((0 : Int).toNat = 0) := by decide

/-- C1: the claim is false for the expired-session case it explicitly
includes: when the session entry is gone from the key-value store (its TTL is
the time limit, so this is exactly the late-submit situation), `submit_quiz`
takes the fallback path, which has NO time-limit check — the submit is
accepted, scored (here 100) and the attempt persisted, because every
submitted question id belongs to the quiz. -/
theorem c1_counterexample :
    Quizzes.submit_quiz Examples.dbC1 1 true none 1000 [(10, "A"), (11, "B")] =
      .ok (⟨100, true, 2, 2⟩, none) ∧
    Examples.quizC1.time_limit = some 60 ∧
    (∀ a ∈ [(10, "A"), (11, "B")], ∃ q ∈ Examples.dbC1.questions,
      q.id = a.1 ∧ q.quiz_id = 1) := by decide

/-- C1 (amended): while the session entry is still present in the store, a
submit whose elapsed time `now - started_at` exceeds the quiz's nonzero time
limit is rejected with 409 — the attempt is neither scored nor persisted.
When the session has expired from the store, the fallback path accepts valid
question ids without any time check. -/
theorem c1_submit_rejected_while_session_present (db : Db.Store) (quizId : Nat)
    (s : Quizzes.SessionVal) (now : Nat)
    (answers : List (Nat × String)) (quiz : Db.Quiz) (tl : Nat)
    (hq : db.quizzes.find? (fun q => q.id = quizId) = some quiz)
    (htl : quiz.time_limit = some tl) (h0 : tl ≠ 0)
    (hlt : tl < now - s.started_at) :
    Quizzes.submit_quiz db quizId true (some s) now answers = .error 409 := by
  unfold Quizzes.submit_quiz
  rw [hq]
  simp [htl, h0, hlt]

/-- Witness for `c1_submit_rejected_while_session_present`: a session started
at 0 submitted at 1000 against a 60-second limit is rejected. -/
theorem c1_submit_rejected_witness :
    Examples.dbC1.quizzes.find? (fun q => q.id = 1) = some Examples.quizC1 ∧
    Examples.quizC1.time_limit = some 60 ∧ (60 : Nat) ≠ 0 ∧ 60 < 1000 - (0 : Nat) ∧
    Quizzes.submit_quiz Examples.dbC1 1 true (some ⟨[10, 11], 0⟩) 1000 [(10, "A"), (11, "B")] =
      .error 409 :=
  ⟨by decide, by decide, by decide, by decide,
    c1_submit_rejected_while_session_present Examples.dbC1 1 ⟨[10, 11], 0⟩ 1000
      [(10, "A"), (11, "B")] Examples.quizC1 60 (by decide) (by decide) (by decide) (by decide)⟩

namespace Lemmas4

open Corelms Db Quizzes

theorem shuffleAux_length {α : Type} [Inhabited α] :
    ∀ (k : Nat) (r : Rng) (l acc : List α),
      (shuffleAux k r l acc).1.length = k + acc.length := by
  intro k
  induction k with
  | zero => intro r l acc; simp [shuffleAux]
  | succ k ih =>
    intro r l acc
    unfold shuffleAux
    rw [ih]
    simp only [List.length_cons]
    omega

theorem shuffle_length {α : Type} [Inhabited α] (r : Rng) (l : List α) :
    (r.shuffle l).1.length = l.length := by
  unfold Rng.shuffle
  rw [shuffleAux_length]
  simp

theorem shuffleAux_mem {α : Type} [Inhabited α] :
    ∀ (k : Nat) (r : Rng) (l acc : List α), k = l.length →
      ∀ x ∈ (shuffleAux k r l acc).1, x ∈ l ∨ x ∈ acc := by
  intro k
  induction k with
  | zero =>
    intro r l acc _ x hx
    simp [shuffleAux] at hx
    exact Or.inr hx
  | succ k ih =>
    intro r l acc hk x hx
    unfold shuffleAux at hx
    have hlne : l ≠ [] := by
      intro h
      subst h
      simp at hk
    have hi : (r.next.1 % l.length) < l.length := by
      apply Nat.mod_lt
      cases l
      · exact absurd rfl hlne
      · simp
    have hk2 : k = (l.eraseIdx (r.next.1 % l.length)).length := by
      have := List.length_eraseIdx_add_one hi
      omega
    rcases ih r.next.2 _ _ hk2 x hx with h | h
    · exact Or.inl ((List.eraseIdx_sublist l _).subset h)
    · rcases List.mem_cons.mp h with h | h
      · subst h
        left
        rw [List.getD_eq_getElem?_getD, List.getElem?_eq_getElem hi]
        exact List.getElem_mem hi
      · exact Or.inr h

theorem shuffle_mem {α : Type} [Inhabited α] (r : Rng) (l : List α)
    (x : α) (hx : x ∈ (r.shuffle l).1) : x ∈ l := by
  rcases shuffleAux_mem l.length r l [] rfl x hx with h | h
  · exact h
  · simp at h

end Lemmas4

namespace Lemmas4

open Corelms Db Quizzes

theorem choice_mem {α : Type} [Inhabited α] (r : Rng) (l : List α) (hl : l ≠ []) :
    (r.choice l).1 ∈ l := by
  unfold Rng.choice
  simp only []
  have hi : (r.next.1 % l.length) < l.length := by
    apply Nat.mod_lt
    cases l
    · exact absurd rfl hl
    · simp
  rw [List.getD_eq_getElem?_getD, List.getElem?_eq_getElem hi]
  exact List.getElem_mem hi

theorem groupKeys_filter_ne_nil (qs : List Question) (k : String)
    (hk : k ∈ groupKeys qs) : qs.filter (fun q => vgOf q = k) ≠ [] := by
  unfold groupKeys at hk
  have hk2 := List.mem_dedup.mp hk
  rw [List.mem_filter] at hk2
  rcases List.mem_map.mp hk2.1 with ⟨q, hq, hvg⟩
  have : q ∈ qs.filter (fun x => vgOf x = k) :=
    List.mem_filter.mpr ⟨hq, by simp [hvg]⟩
  exact List.ne_nil_of_mem this

theorem pickPerGroup_mem (qs : List Question) :
    ∀ (keys : List String) (rng : Rng), (∀ k ∈ keys, qs.filter (fun q => vgOf q = k) ≠ []) →
      ∀ x ∈ (pickPerGroup qs keys rng).1, ∃ q ∈ qs, x = q := by
  intro keys
  induction keys with
  | nil =>
    intro rng _ x hx
    simp [pickPerGroup] at hx
  | cons k rest ih =>
    intro rng hne x hx
    unfold pickPerGroup at hx
    simp only [List.mem_cons] at hx
    rcases hx with hx | hx
    · subst hx
      have hmem := choice_mem rng (qs.filter (fun q => vgOf q = k)) (hne k (by simp))
      exact ⟨_, (List.mem_filter.mp hmem).1, rfl⟩
    · exact ih _ (fun k2 hk2 => hne k2 (by simp [hk2])) x hx

theorem pickPerGroup_length (qs : List Question) :
    ∀ (keys : List String) (rng : Rng), (pickPerGroup qs keys rng).1.length = keys.length := by
  intro keys
  induction keys with
  | nil => intro rng; simp [pickPerGroup]
  | cons k rest ih =>
    intro rng
    unfold pickPerGroup
    simp only [List.length_cons]
    rw [ih]

theorem filterMap_find_ids (db : List Question) :
    ∀ ids : List Nat, (∀ qid ∈ ids, ∃ q ∈ db, q.id = qid) →
      ((ids.filterMap fun qid => db.find? fun q => q.id = qid).map (·.id)) = ids := by
  intro ids
  induction ids with
  | nil => intro _; simp
  | cons qid rest ih =>
    intro hall
    have hsome : (db.find? fun q => q.id = qid).isSome := by
      rw [List.find?_isSome]
      rcases hall qid (by simp) with ⟨q, hq, hid⟩
      exact ⟨q, hq, by simp [hid]⟩
    rcases Option.isSome_iff_exists.mp hsome with ⟨q, hq⟩
    have hqid : q.id = qid := by
      have := List.find?_some hq
      simpa using this
    simp only [List.filterMap_cons, hq, List.map_cons, hqid]
    rw [ih (fun x hx => hall x (by simp [hx]))]

end Lemmas4

namespace Lemmas4

open Corelms Db Quizzes

theorem finishStart_nonfinal (questions : List Question) (ru : Bool) (sess : Option SessionVal)
    (now : Nat) (rng : Rng) (hne : questions ≠ []) :
    (finishStart questions false ru sess now rng).2.1 =
      (if ru then some ⟨(finishStart questions false ru sess now rng).1, now⟩ else sess) ∧
    (finishStart questions false ru sess now rng).1 ≠ [] ∧
    (∀ qid ∈ (finishStart questions false ru sess now rng).1,
      ∃ q ∈ questions, q.id = qid) := by
  unfold finishStart
  simp only [Bool.false_eq_true, if_false, if_true]
  refine ⟨by cases ru <;> simp, ?_, ?_⟩
  · -- nonempty
    have hlen : ((pickPerGroup questions (groupKeys questions) rng).2.shuffle
        ((pickPerGroup questions (groupKeys questions) rng).1 ++
          questions.filter (fun q => vgOf q = ""))).1.length =
        (groupKeys questions).length + (questions.filter (fun q => vgOf q = "")).length := by
      rw [shuffle_length, List.length_append, pickPerGroup_length]
    intro hcon
    rw [List.map_eq_nil_iff] at hcon
    rw [hcon] at hlen
    simp only [List.length_nil] at hlen
    rcases questions with _ | ⟨q, qs⟩
    · exact absurd rfl hne
    · by_cases hv : vgOf q = ""
      · have : q ∈ (q :: qs).filter (fun x => vgOf x = "") :=
          List.mem_filter.mpr ⟨by simp, by simp [hv]⟩
        have := List.ne_nil_of_mem this
        have hpos := List.length_pos.mpr this
        omega
      · have hkmem : vgOf q ∈ groupKeys (q :: qs) := by
          unfold groupKeys
          apply List.mem_dedup.mpr
          exact List.mem_filter.mpr ⟨List.mem_map.mpr ⟨q, by simp, rfl⟩, by simp [hv]⟩
        have := List.ne_nil_of_mem hkmem
        have hpos := List.length_pos.mpr this
        omega
  · intro qid hqid
    rcases List.mem_map.mp hqid with ⟨x, hx, hid⟩
    have hx2 := shuffle_mem _ _ x hx
    rcases List.mem_append.mp hx2 with hx3 | hx3
    · rcases pickPerGroup_mem questions (groupKeys questions) rng
        (fun k hk => groupKeys_filter_ne_nil questions k hk) x hx3 with ⟨q, hq, hxy⟩
      exact ⟨q, hq, by rw [← hxy, hid]⟩
    · exact ⟨x, (List.mem_filter.mp hx3).1, hid⟩

theorem key_of_fresh (db : Store) (quiz : Quiz) (sess : Option SessionVal) (now1 : Nat)
    (rng1 rng1x : Rng) (ids : List Nat) (s : SessionVal)
    (h1 : startFresh db quiz false true sess now1 rng1 = .ok (ids, some s, rng1x)) :
    s.question_ids = ids ∧ ids ≠ [] ∧
      (∀ qid ∈ ids, ∃ q ∈ db.questions, q.id = qid) := by
  unfold startFresh at h1
  simp only [Bool.false_eq_true, if_false] at h1
  split at h1
  · exact absurd h1 (by simp)
  rename_i hqsne
  rw [Except.ok.injEq] at h1
  have hfs := finishStart_nonfinal (db.questions.filter fun q => q.quiz_id = quiz.id)
    true sess now1 rng1 hqsne
  have hfst : (finishStart (db.questions.filter fun q => q.quiz_id = quiz.id)
      false true sess now1 rng1).1 = ids := congrArg Prod.fst h1
  have hsnd : (finishStart (db.questions.filter fun q => q.quiz_id = quiz.id)
      false true sess now1 rng1).2.1 = some s := congrArg (fun p => p.2.1) h1
  rw [hfs.1, if_pos rfl, hfst] at hsnd
  have hs : s = ⟨ids, now1⟩ := by
    cases hsnd
    rfl
  refine ⟨by rw [hs], by rw [← hfst]; exact hfs.2.1, ?_⟩
  intro qid hqid
  rcases hfs.2.2 qid (by rw [hfst]; exact hqid) with ⟨q, hqmem, hid⟩
  exact ⟨q, (List.mem_filter.mp hqmem).1, hid⟩

theorem start_reuse (db : Store) (quizId : Nat) (quiz : Quiz) (s : SessionVal)
    (now : Nat) (rng : Rng)
    (hq : db.quizzes.find? (fun q => q.id = quizId) = some quiz)
    (hnf : quiz.qtype ≠ "final") (hne : s.question_ids ≠ []) :
    start_quiz db quizId true (some s) now rng =
      .ok ((s.question_ids.filterMap fun qid =>
        db.questions.find? fun q => q.id = qid).map (·.id), some s, rng) := by
  unfold start_quiz
  rw [hq]
  simp [hnf, hne]

end Lemmas4

/-- C2: two consecutive `start_quiz` calls for the same non-final quiz and
learner, with no submit in between (the database and the stored session
unchanged between the calls, the key-value store reachable), return the same
question ids in the same order: the second call reuses the stored session's
`question_ids` list instead of re-selecting or re-shuffling (its RNG is
returned untouched). -/
theorem c2_start_idempotent (db : Db.Store) (quizId : Nat)
    (sess0 : Option Quizzes.SessionVal) (now1 now2 : Nat)
    (rng1 rng2 rng1x : Corelms.Rng) (quiz : Db.Quiz)
    (ids : List Nat) (s : Quizzes.SessionVal)
    (hq : db.quizzes.find? (fun q => q.id = quizId) = some quiz)
    (hnf : quiz.qtype ≠ "final")
    (h1 : Quizzes.start_quiz db quizId true sess0 now1 rng1 = .ok (ids, some s, rng1x)) :
    Quizzes.start_quiz db quizId true (some s) now2 rng2 = .ok (ids, some s, rng2) := by
  have key : s.question_ids ≠ [] ∧
      (s.question_ids.filterMap fun qid =>
        db.questions.find? fun q => q.id = qid).map (·.id) = ids := by
    unfold Quizzes.start_quiz at h1
    rw [hq] at h1
    simp only [hnf, if_true, if_false, decide_False] at h1
    rcases sess0 with _ | s0
    · rcases Lemmas4.key_of_fresh db quiz none now1 rng1 rng1x ids s h1 with ⟨hqs, hne, hfind⟩
      refine ⟨by rw [hqs]; exact hne, ?_⟩
      rw [hqs]
      exact Lemmas4.filterMap_find_ids db.questions ids hfind
    · split at h1
      · rename_i s1 hs1
        injection hs1 with hs1e
        subst hs1e
        split at h1
        · rename_i hne0
          rw [Except.ok.injEq] at h1
          have hids := congrArg Prod.fst h1
          have hsx := congrArg (fun p => p.2.1) h1
          simp only [Option.some.injEq] at hsx
          subst hsx
          exact ⟨hne0, hids⟩
        · rcases Lemmas4.key_of_fresh db quiz (some s0) now1 rng1 rng1x ids s h1 with ⟨hqs, hne, hfind⟩
          refine ⟨by rw [hqs]; exact hne, ?_⟩
          rw [hqs]
          exact Lemmas4.filterMap_find_ids db.questions ids hfind
      · rename_i hs1
        exact absurd hs1 (by simp)
  rw [Lemmas4.start_reuse db quizId quiz s now2 rng2 hq hnf key.1, key.2]

/-- Witness for `c2_start_idempotent`: with the all-zero stream the first
call selects `[10, 11]` and writes the session; the second call returns the
same ids and does not touch its RNG. -/
theorem c2_start_idempotent_witness :
    Quizzes.start_quiz Examples.dbC1 1 true none 100 ⟨fun _ => 0, 0⟩ =
      .ok ([10, 11], some ⟨[10, 11], 100⟩, ⟨fun _ => 0, 2⟩) ∧
    Quizzes.start_quiz Examples.dbC1 1 true (some ⟨[10, 11], 100⟩) 200 ⟨fun _ => 0, 5⟩ =
      .ok ([10, 11], some ⟨[10, 11], 100⟩, ⟨fun _ => 0, 5⟩) :=
  ⟨rfl, c2_start_idempotent Examples.dbC1 1 none 100 200 ⟨fun _ => 0, 0⟩ ⟨fun _ => 0, 5⟩
    ⟨fun _ => 0, 2⟩ Examples.quizC1 [10, 11] ⟨[10, 11], 100⟩ rfl (by decide) rfl⟩

/-- C10: when the key-value store is unreachable (`redisUp = false`: the
session read and the session write both fail and the exceptions are
swallowed), `start_quiz` on an existing non-final quiz with questions still
succeeds with a freshly selected nonempty question list, and the session
state is left untouched — so the idempotent-reuse guarantee needs the store
to be available. -/
theorem c10_start_redis_down (db : Db.Store) (quizId : Nat)
    (sess : Option Quizzes.SessionVal) (now : Nat) (rng : Corelms.Rng) (quiz : Db.Quiz)
    (hq : db.quizzes.find? (fun q => q.id = quizId) = some quiz)
    (hnf : quiz.qtype ≠ "final")
    (hqs : db.questions.filter (fun q => q.quiz_id = quiz.id) ≠ []) :
    ∃ ids rng2, Quizzes.start_quiz db quizId false sess now rng = .ok (ids, sess, rng2) ∧
      ids ≠ [] := by
  unfold Quizzes.start_quiz
  rw [hq]
  simp only [hnf, if_true, if_false, decide_False]
  unfold Quizzes.startFresh
  simp only [hnf, if_false, decide_False, Bool.false_eq_true]
  rw [if_neg hqs]
  have hfs := Lemmas4.finishStart_nonfinal (db.questions.filter fun q => q.quiz_id = quiz.id)
    false sess now rng hqs
  generalize hgen : Quizzes.finishStart (db.questions.filter fun q => q.quiz_id = quiz.id)
    false false sess now rng = f at hfs ⊢
  refine ⟨f.1, f.2.2, ?_, hfs.2.1⟩
  have h21 := hfs.1
  rw [if_neg (by simp)] at h21
  rw [← h21]

/-- Witness for `c10_start_redis_down`: with the store down, a start against
`dbC1` succeeds, ignores the (unreachable) stored session and returns a
nonempty selection. -/
theorem c10_start_redis_down_witness :
    Examples.dbC1.quizzes.find? (fun q => q.id = 1) = some Examples.quizC1 ∧
    Examples.quizC1.qtype ≠ "final" ∧
    Examples.dbC1.questions.filter (fun q => q.quiz_id = Examples.quizC1.id) ≠ [] ∧
    (∃ ids rng2, Quizzes.start_quiz Examples.dbC1 1 false (some ⟨[99], 5⟩) 100 ⟨fun _ => 0, 0⟩ =
      .ok (ids, some ⟨[99], 5⟩, rng2) ∧ ids ≠ []) :=
  ⟨rfl, by decide, by decide,
    c10_start_redis_down Examples.dbC1 1 (some ⟨[99], 5⟩) 100 ⟨fun _ => 0, 0⟩
      Examples.quizC1 rfl (by decide) (by decide)⟩

namespace Lemmas6

open Corelms Db Quizzes

theorem insertNat_length (x : Nat) : ∀ l : List Nat, (insertNat x l).length = l.length + 1 := by
  intro l
  induction l with
  | nil => simp [insertNat]
  | cons y rest ih =>
    unfold insertNat
    split
    · simp
    · simp only [List.length_cons, ih]

theorem sortNats_length : ∀ l : List Nat, (sortNats l).length = l.length := by
  intro l
  induction l with
  | nil => simp [sortNats]
  | cons x rest ih =>
    unfold sortNats
    rw [insertNat_length, ih]
    simp

theorem buildPools_spec (questions : List Question) (lastSub : Submodule) :
    ∀ (lessons : List Submodule) (rng : Rng),
      lastSub.id ∉ lessons.map (·.id) →
      (∀ sub ∈ lessons, ∃ qid, sub.quiz_id = some qid ∧
        2 ≤ (questions.filter fun q => q.quiz_id = qid).length) →
      (buildPools questions (some lastSub.id) (lessons ++ [lastSub]) rng).1.length =
        lessons.length ∧
      ∀ p ∈ (buildPools questions (some lastSub.id) (lessons ++ [lastSub]) rng).1,
        2 ≤ p.length := by
  intro lessons
  induction lessons with
  | nil =>
    intro rng _ _
    refine ⟨by simp [buildPools], ?_⟩
    intro p hp
    simp [buildPools] at hp
  | cons sub rest ih =>
    intro rng hnotin hall
    have hne : ¬(some lastSub.id = some sub.id) := by
      simp only [List.map_cons, List.mem_cons] at hnotin
      intro hcon
      injection hcon with hc
      exact hnotin (Or.inl hc)
    rcases hall sub (by simp) with ⟨qid, hqid, hge⟩
    rw [List.cons_append]
    unfold buildPools
    rw [if_neg hne, hqid]
    simp only []
    have hplen : (sortNats ((questions.filter fun q => q.quiz_id = qid).map (·.id))).length =
        (questions.filter fun q => q.quiz_id = qid).length := by
      rw [sortNats_length, List.length_map]
    have hpoolne : sortNats ((questions.filter fun q => q.quiz_id = qid).map (·.id)) ≠ [] := by
      intro hcon
      rw [hcon] at hplen
      simp at hplen
      omega
    rw [if_neg hpoolne]
    have hrest := ih
      ((rng.shuffle (sortNats ((questions.filter fun q => q.quiz_id = qid).map (·.id)))).2) (by
      simp only [List.map_cons, List.mem_cons] at hnotin
      intro hcon
      exact hnotin (Or.inr hcon))
      (fun x hx => hall x (by simp [hx]))
    refine ⟨?_, ?_⟩
    · simp only [List.length_cons, hrest.1]
    · intro p hp
      rcases List.mem_cons.mp hp with hp | hp
      · subst hp
        rw [Lemmas4.shuffle_length, hplen]
        exact hge
      · exact hrest.2 p hp

theorem phase1Aux_length_ge (pools : List (List Nat)) (hall : ∀ p ∈ pools, 2 ≤ p.length) :
    2 * pools.length ≤ (phase1Aux pools).1.length := by
  induction pools with
  | nil => simp [phase1Aux]
  | cons p rest ih =>
    unfold phase1Aux
    simp only [List.length_append, List.length_cons]
    have h2 : (p.take 2).length = 2 := by
      rw [List.length_take]
      have := hall p (by simp)
      omega
    have := ih (fun x hx => hall x (by simp [hx]))
    omega

theorem phase2Loop_of_ge (fuel : Nat) (pools : List (List Nat)) (sel : List Nat)
    (h : 10 ≤ sel.length) : phase2Loop fuel pools sel = sel := by
  cases fuel with
  | zero => rfl
  | succ k =>
    unfold phase2Loop
    rw [if_pos h]

end Lemmas6

namespace Lemmas6

open Corelms Db Quizzes

theorem select_floor (questions : List Question) (subs lessons : List Submodule)
    (lastSub : Submodule) (rng : Rng)
    (hsort : sortSubsByOrder subs = lessons ++ [lastSub])
    (hnotin : lastSub.id ∉ lessons.map (·.id))
    (h5 : 5 ≤ lessons.length)
    (hall : ∀ sub ∈ lessons, ∃ qid, sub.quiz_id = some qid ∧
      2 ≤ (questions.filter fun q => q.quiz_id = qid).length) :
    10 ≤ (selectFinalQuestionIdsFromLessons questions subs rng).1.length := by
  unfold selectFinalQuestionIdsFromLessons
  simp only [hsort, List.getLast?_concat, Option.map_some']
  have hspec := buildPools_spec questions lastSub lessons rng hnotin hall
  have hp1 : 10 ≤ (phase1Aux (buildPools questions (some lastSub.id)
      (lessons ++ [lastSub]) rng).1).1.length := by
    have := phase1Aux_length_ge _ hspec.2
    rw [hspec.1] at this
    omega
  rw [Lemmas4.shuffle_length, phase2Loop_of_ge _ _ _ hp1]
  exact hp1

theorem mem_insertSubByOrder (x y : Submodule) :
    ∀ l : List Submodule, y ∈ insertSubByOrder x l ↔ y = x ∨ y ∈ l := by
  intro l
  induction l with
  | nil => simp [insertSubByOrder]
  | cons z rest ih =>
    unfold insertSubByOrder
    split
    · simp
    · simp only [List.mem_cons, ih]
      tauto

theorem mem_sortSubsByOrder (y : Submodule) :
    ∀ l : List Submodule, y ∈ sortSubsByOrder l ↔ y ∈ l := by
  intro l
  induction l with
  | nil => simp [sortSubsByOrder]
  | cons x rest ih =>
    unfold sortSubsByOrder
    rw [mem_insertSubByOrder]
    simp only [List.mem_cons, ih]

theorem buildPools_nil (questions : List Question) (lastId : Option Nat) :
    ∀ (subs : List Submodule) (rng : Rng),
      (∀ sub ∈ subs, ∀ qid, sub.quiz_id = some qid →
        questions.filter (fun q => q.quiz_id = qid) = []) →
      (buildPools questions lastId subs rng).1 = [] := by
  intro subs
  induction subs with
  | nil => intro rng _; simp [buildPools]
  | cons sub rest ih =>
    intro rng hno
    unfold buildPools
    split
    · exact ih rng (fun x hx => hno x (by simp [hx]))
    · split
      · exact ih rng (fun x hx => hno x (by simp [hx]))
      · rename_i hne qid hqid
        have : questions.filter (fun q => q.quiz_id = qid) = [] :=
          hno sub (by simp) qid hqid
        rw [if_pos (by rw [this]; rfl)]
        exact ih rng (fun x hx => hno x (by simp [hx]))

theorem select_no_questions (questions : List Question) (moduleSubs : List Submodule)
    (rng : Rng)
    (hno : ∀ sub ∈ moduleSubs, ∀ qid, sub.quiz_id = some qid →
      questions.filter (fun q => q.quiz_id = qid) = []) :
    (selectFinalQuestionIdsFromLessons questions moduleSubs rng).1 = [] := by
  unfold selectFinalQuestionIdsFromLessons
  simp only []
  rw [buildPools_nil questions _ _ rng
    (fun sub hsub => hno sub ((mem_sortSubsByOrder sub moduleSubs).mp hsub))]
  simp [phase1Aux, phase2Loop, phase2Pass, Rng.shuffle, shuffleAux]

theorem start_final_refused (db : Store) (quizId : Nat) (sess : Option SessionVal)
    (now : Nat) (rng : Rng) (quiz : Quiz) (m : Module)
    (hq : db.quizzes.find? (fun q => q.id = quizId) = some quiz)
    (hf : quiz.qtype = "final")
    (hm : db.modules.find? (fun mm => mm.final_quiz_id = some quiz.id) = some m)
    (hsel : (selectFinalQuestionIdsFromLessons db.questions
      (db.submodules.filter fun s => s.module_id = m.id) rng).1 = []) :
    start_quiz db quizId true sess now rng = .error 409 := by
  unfold start_quiz
  rw [hq]
  simp only [hf, if_true, if_false, decide_True, ite_true]
  unfold startFresh
  simp only [hf, decide_True, if_true, ite_true]
  rw [hm]
  simp [hsel]

end Lemmas6

/-- C6: final-exam assembly (up to 2 questions per lesson pool, then
round-robin passes of 1 until the floor of 10 or pool exhaustion, then a
final shuffle — the definition `selectFinalQuestionIdsFromLessons`) returns
at least 10 question ids whenever the module has at least 5 non-final
lessons each holding at least 2 questions; and when no eligible source
questions exist at all, `start_quiz` on the final quiz refuses with 409
instead of returning an empty exam. -/
theorem c6_final_assembly :
    (∀ (questions : List Db.Question) (subs lessons : List Db.Submodule)
        (lastSub : Db.Submodule) (rng : Corelms.Rng),
      Db.sortSubsByOrder subs = lessons ++ [lastSub] →
      lastSub.id ∉ lessons.map (·.id) →
      5 ≤ lessons.length →
      (∀ sub ∈ lessons, ∃ qid, sub.quiz_id = some qid ∧
        2 ≤ (questions.filter fun q => q.quiz_id = qid).length) →
      10 ≤ (Quizzes.selectFinalQuestionIdsFromLessons questions subs rng).1.length) ∧
    (∀ (db : Db.Store) (quizId : Nat) (sess : Option Quizzes.SessionVal) (now : Nat)
        (rng : Corelms.Rng) (quiz : Db.Quiz) (m : Db.Module),
      db.quizzes.find? (fun q => q.id = quizId) = some quiz →
      quiz.qtype = "final" →
      db.modules.find? (fun mm => mm.final_quiz_id = some quiz.id) = some m →
      (∀ sub ∈ db.submodules.filter (fun s => s.module_id = m.id), ∀ qid,
        sub.quiz_id = some qid → db.questions.filter (fun q => q.quiz_id = qid) = []) →
      Quizzes.start_quiz db quizId true sess now rng = .error 409) :=
  ⟨fun questions subs lessons lastSub rng hs hn h5 ha =>
    Lemmas6.select_floor questions subs lessons lastSub rng hs hn h5 ha,
   fun db quizId sess now rng quiz m hq hf hm hno =>
    Lemmas6.start_final_refused db quizId sess now rng quiz m hq hf hm
      (Lemmas6.select_no_questions db.questions _ rng hno)⟩

/-- Witness for `c6_final_assembly`: 5 lessons with 2 questions each give an
exam of at least 10 ids; a module with empty pools is refused with 409. -/
theorem c6_final_assembly_witness :
    (Db.sortSubsByOrder Examples.subsC6 = Examples.lessonsC6 ++ [Examples.finSubC6] ∧
     Examples.finSubC6.id ∉ Examples.lessonsC6.map (·.id) ∧
     5 ≤ Examples.lessonsC6.length ∧
     (∀ sub ∈ Examples.lessonsC6, ∃ qid, sub.quiz_id = some qid ∧
       2 ≤ (Examples.questionsC6.filter fun q => q.quiz_id = qid).length) ∧
     10 ≤ (Quizzes.selectFinalQuestionIdsFromLessons Examples.questionsC6 Examples.subsC6
       ⟨fun _ => 0, 0⟩).1.length) ∧
    (Examples.dbC6empty.quizzes.find? (fun q => q.id = 50) = some Examples.finalQuizC6 ∧
     Examples.finalQuizC6.qtype = "final" ∧
     Examples.dbC6empty.modules.find? (fun mm => mm.final_quiz_id = some 50) =
       some Examples.moduleC6 ∧
     Quizzes.start_quiz Examples.dbC6empty 50 true none 100 ⟨fun _ => 0, 0⟩ = .error 409) :=
  ⟨⟨by decide, by decide, by decide, by decide,
    c6_final_assembly.1 Examples.questionsC6 Examples.subsC6 Examples.lessonsC6
      Examples.finSubC6 ⟨fun _ => 0, 0⟩ (by decide) (by decide) (by decide) (by decide)⟩,
   ⟨by decide, by decide, by decide,
    c6_final_assembly.2 Examples.dbC6empty 50 none 100 ⟨fun _ => 0, 0⟩
      Examples.finalQuizC6 Examples.moduleC6 (by decide) (by decide) (by decide)
      (by decide)⟩⟩

/-- C9: while the fingerprint lock still holds the job id of an earlier
enqueue (value nonempty, hence unexpired and unreleased), a second
enqueue-import request for the same fingerprint is refused with a conflict
that reports that job id — either at the fingerprint lock, or already at the
object-key lock which holds the same id when the same upload is retried —
and the whole request state (queue, locks, modules) is left unchanged: no
new job is enqueued. -/
theorem c9_fingerprint_dedup (st : AdminR.EnqSt) (objectKey fingerprint : String)
    (title sourceFilename : Option String) (j : String)
    (hobj : Corelms.pyStrip objectKey ≠ "")
    (hfp : fingerprint ≠ "")
    (hlock : AdminR.lockValue st (AdminR.fpLockKey fingerprint) = j)
    (hjne : j ≠ "")
    (hok : AdminR.lockValue st (AdminR.okLockKey (Corelms.pyStrip objectKey)) = "" ∨
           AdminR.lockValue st (AdminR.okLockKey (Corelms.pyStrip objectKey)) = j) :
    ∃ e, AdminR.enqueue_import_zip st objectKey fingerprint title sourceFilename =
      (.error e, st) ∧ (e = .conflictObjectKey j ∨ e = .conflictFingerprint j) := by
  unfold AdminR.enqueue_import_zip
  rw [if_neg hobj]
  rcases hok with hok | hok
  · rw [hok]
    simp only [ne_eq, not_true_eq_false, if_false, ite_false, if_neg (by trivial)]
    rw [if_pos hfp, hlock, if_pos hjne]
    exact ⟨.conflictFingerprint j, rfl, Or.inr rfl⟩
  · rw [hok, if_pos hjne]
    exact ⟨.conflictObjectKey j, rfl, Or.inl rfl⟩

/-- Witness for `c9_fingerprint_dedup`: re-enqueueing fingerprint
`etag:123` under a different object key conflicts with `job-7`. -/
theorem c9_fingerprint_dedup_witness :
    Corelms.pyStrip "uploads/b.zip" ≠ "" ∧ ("etag:123" : String) ≠ "" ∧
    AdminR.lockValue Examples.enqStC9 (AdminR.fpLockKey "etag:123") = "job-7" ∧
    ("job-7" : String) ≠ "" ∧
    (∃ e, AdminR.enqueue_import_zip Examples.enqStC9 "uploads/b.zip" "etag:123" none none =
      (.error e, Examples.enqStC9) ∧
      (e = .conflictObjectKey "job-7" ∨ e = .conflictFingerprint "job-7")) :=
  ⟨by decide, by decide, by decide, by decide,
    c9_fingerprint_dedup Examples.enqStC9 "uploads/b.zip" "etag:123" none none "job-7"
      (by decide) (by decide) (by decide) (by decide) (Or.inl (by decide))⟩

namespace Lemmas7

open Corelms Db Regen

theorem CleanReads.refl_of_eq {flag : Nat → Bool} {st st2 : RunSt}
    (h : st2.reads = st.reads) : CleanReads flag st st2 :=
  ⟨by omega, fun k h1 h2 => by omega⟩

theorem CleanReads.trans {flag : Nat → Bool} {a b c : RunSt}
    (h1 : CleanReads flag a b) (h2 : CleanReads flag b c) : CleanReads flag a c := by
  refine ⟨by have := h1.1; have := h2.1; omega, ?_⟩
  intro k hk1 hk2
  by_cases hk : k < b.reads
  · exact h1.2 k hk1 hk
  · exact h2.2 k (by omega) hk2

theorem cancelCheckpoint_ok {flag : Nat → Bool} {stage : String} {st st2 : RunSt}
    (h : cancelCheckpoint flag stage st = .ok st2) :
    st2 = { st with reads := st.reads + 1 } ∧ flag st.reads = false := by
  simp only [cancelCheckpoint] at h
  split at h
  · exact absurd h (by simp)
  · rename_i hb
    injection h with h
    exact ⟨h.symm, by simpa using hb⟩

theorem cancelCheckpoint_error {flag : Nat → Bool} {stage : String} {st : RunSt}
    {e : JobErr} (h : cancelCheckpoint flag stage st = .error e) :
    ∃ st2, e = .canceled st2 ∧ st2.sess = st.sess ∧ st2.meta.stage = "canceled" ∧
      st2.reads = st.reads + 1 ∧ flag st.reads = true := by
  simp only [cancelCheckpoint] at h
  split at h
  · rename_i hb
    injection h with h
    exact ⟨_, h.symm, rfl, rfl, rfl, hb⟩
  · exact absurd h (by simp)

theorem newRows_quiz_id (s : Sess) (sub : Submodule) (m : Module)
    (qs : List LlmHandler.GenQ) (uh af : Bool) (title : String) :
    ∀ r ∈ (if qs ≠ [] then
        (qs.enum.map fun p =>
          mkQuestionRow (s.nextId + 1 + p.1) s.nextId p.2 uh af m.id sub.order (p.1 + 1))
      else
        [mkFallbackRow (s.nextId + 1) s.nextId title af m.id sub.order]),
      r.quiz_id = s.nextId := by
  intro r hr
  split at hr
  · rcases List.mem_map.mp hr with ⟨p, _, hrr⟩
    rw [← hrr]
    rfl
  · rcases List.mem_singleton.mp hr with rfl
    rfl

theorem subUpdate_collapse (sub : Submodule) (w v : Option Nat) :
    ({ ({ sub with quiz_id := w } : Submodule) with quiz_id := v } : Submodule) =
      { sub with quiz_id := v } := rfl

theorem writeLesson_inv (db0 : Store) (nextId0 : Nat) (st : RunSt) (sub : Submodule)
    (m : Module) (qs : List LlmHandler.GenQ) (uh af : Bool) (title : String)
    (hInv : RegenInv db0 nextId0 st.sess) :
    RegenInv db0 nextId0 (writeLesson st sub m qs uh af title).sess := by
  obtain ⟨⟨eqz, hqz⟩, ⟨eqq, hqq⟩, hbound, hwm, hquest, hsubs⟩ := hInv
  unfold writeLesson
  simp only []
  constructor
  · exact ⟨eqz ++ [_], by rw [hqz, List.append_assoc]⟩
  constructor
  · exact ⟨eqq ++ _, by rw [hqq, List.append_assoc]⟩
  constructor
  · intro qz hqzm
    rcases List.mem_append.mp hqzm with hh | hh
    · have := hbound qz hh
      dsimp only
      omega
    · rcases List.mem_singleton.mp hh with rfl
      dsimp only
      omega
  constructor
  · dsimp only
    omega
  constructor
  · intro q hqm hqnot
    rcases List.mem_append.mp hqm with hh | hh
    · rcases hquest q hh hqnot with ⟨hge, qz, hqzm, hqzid⟩
      exact ⟨hge, qz, List.mem_append.mpr (Or.inl hqzm), hqzid⟩
    · have hqid := newRows_quiz_id st.sess sub m qs uh af title q hh
      refine ⟨by rw [hqid]; exact hwm, ?_⟩
      refine ⟨_, List.mem_append.mpr (Or.inr (List.mem_singleton.mpr rfl)), ?_⟩
      rw [hqid]
  · intro sub2 hsub2
    rcases List.mem_map.mp hsub2 with ⟨x, hx, hfx⟩
    rcases hsubs x hx with ⟨sub0, hsub0, hid, hcase⟩
    by_cases hxid : x.id = sub.id
    · rw [if_pos hxid] at hfx
      refine ⟨sub0, hsub0, by rw [← hfx]; exact hid, Or.inr ⟨st.sess.nextId, ?_, hwm, ?_⟩⟩
      · rcases hcase with hcase | ⟨nqid, hcase, _, _⟩
        · rw [← hfx, hcase]
        · rw [← hfx, hcase, subUpdate_collapse]
      · exact ⟨_, List.mem_append.mpr (Or.inr (List.mem_singleton.mpr rfl)), rfl⟩
    · rw [if_neg hxid] at hfx
      subst hfx
      refine ⟨sub0, hsub0, hid, ?_⟩
      rcases hcase with hcase | ⟨nqid, hc1, hc2, qz, hqzm, hqzid⟩
      · exact Or.inl hcase
      · exact Or.inr ⟨nqid, hc1, hc2, qz, List.mem_append.mpr (Or.inl hqzm), hqzid⟩

theorem writeLesson_committed (st : RunSt) (sub : Submodule) (m : Module)
    (qs : List LlmHandler.GenQ) (uh af : Bool) (title : String) :
    (writeLesson st sub m qs uh af title).sess.committed = st.sess.committed := rfl

theorem writeLesson_reads (st : RunSt) (sub : Submodule) (m : Module)
    (qs : List LlmHandler.GenQ) (uh af : Bool) (title : String) :
    (writeLesson st sub m qs uh af title).reads = st.reads := rfl

theorem stepSpec_of_ok {flag : Nat → Bool} {db0 : Store} {nextId0 : Nat}
    {st st2 : RunSt} (hc : st2.sess.committed = st.sess.committed)
    (hr : st2.reads = st.reads)
    (hinv : RegenInv db0 nextId0 st.sess → RegenInv db0 nextId0 st2.sess) :
    StepSpec flag db0 nextId0 (Except.ok st2) st := by
  refine ⟨?_, ?_, ?_⟩
  · intro s2 h
    injection h with h
    subst h
    exact ⟨hc, CleanReads.refl_of_eq hr, hinv⟩
  · intro s2 h
    exact absurd h (by simp)
  · intro s2 h
    exact absurd h (by simp)

theorem stepSpec_transfer {flag : Nat → Bool} {db0 : Store} {nextId0 : Nat}
    {x : Except JobErr RunSt} {st st2 : RunSt}
    (h : StepSpec flag db0 nextId0 x st2) (hs : st2.sess = st.sess)
    (hr : st2.reads = st.reads) : StepSpec flag db0 nextId0 x st := by
  refine ⟨?_, ?_, ?_⟩
  · intro s2 hx
    rcases h.1 s2 hx with ⟨hc, hcl, hinv⟩
    exact ⟨by rw [hc, hs], ⟨by have := hcl.1; omega, fun k h1 h2 => hcl.2 k (by omega) h2⟩,
      by rw [hs] at hinv; exact hinv⟩
  · intro s2 hx
    rcases h.2.1 s2 hx with ⟨hc, hst, hrr⟩
    exact ⟨by rw [hc, hs], hst, by omega⟩
  · intro s2 hx
    rcases h.2.2 s2 hx with ⟨hc, hcl⟩
    exact ⟨by rw [hc, hs], ⟨by have := hcl.1; omega, fun k h1 h2 => hcl.2 k (by omega) h2⟩⟩

/-- Sequencing a cancel checkpoint before a continuation. -/
theorem stepSpec_bind_cc {flag : Nat → Bool} {db0 : Store} {nextId0 : Nat}
    (stage : String) (Y : RunSt) (k : RunSt → Except JobErr RunSt) (st : RunSt)
    (hYs : Y.sess = st.sess) (hYr : Y.reads = st.reads)
    (hk : ∀ stB, stB.sess = st.sess → stB.reads = st.reads + 1 → flag st.reads = false →
      StepSpec flag db0 nextId0 (k stB) stB) :
    StepSpec flag db0 nextId0 (Bind.bind (cancelCheckpoint flag stage Y) k) st := by
  cases hc : cancelCheckpoint flag stage Y with
  | error e =>
    rcases cancelCheckpoint_error hc with ⟨stE, rfl, hsess, hstage, hreads, hflag⟩
    refine ⟨?_, ?_, ?_⟩
    · intro s2 h
      simp [Bind.bind, Except.bind] at h
    · intro s2 h
      simp only [Bind.bind, Except.bind] at h
      injection h with h
      injection h with h
      subst h
      exact ⟨by rw [hsess, hYs], hstage, by omega⟩
    · intro s2 h
      simp [Bind.bind, Except.bind] at h
  | ok stB =>
    rcases cancelCheckpoint_ok hc with ⟨hB, hflag⟩
    have hBs : stB.sess = st.sess := by rw [hB]; simpa using hYs
    have hBr : stB.reads = st.reads + 1 := by rw [hB]; simp; omega
    have hkk := hk stB hBs hBr (by rw [← hYr]; exact hflag)
    rw [show (Except.ok stB >>= k : Except JobErr RunSt) = k stB from rfl]
    refine ⟨?_, ?_, ?_⟩
    · intro s2 hx
      rcases hkk.1 s2 hx with ⟨hc2, hcl, hinv⟩
      refine ⟨by rw [hc2, hBs], ?_, by rw [hBs] at hinv; exact hinv⟩
      refine CleanReads.trans (show CleanReads flag st stB from ⟨by omega, ?_⟩) hcl
      intro kk h1 h2
      have : kk = st.reads := by omega
      subst this
      rw [← hYr]
      exact hflag
    · intro s2 hx
      rcases hkk.2.1 s2 hx with ⟨hc2, hst, hrr⟩
      exact ⟨by rw [hc2, hBs], hst, by omega⟩
    · intro s2 hx
      rcases hkk.2.2 s2 hx with ⟨hc2, hcl⟩
      refine ⟨by rw [hc2, hBs], ?_⟩
      refine CleanReads.trans (show CleanReads flag st stB from ⟨by omega, ?_⟩) hcl
      intro kk h1 h2
      have : kk = st.reads := by omega
      subst this
      rw [← hYr]
      exact hflag

end Lemmas7

namespace Lemmas7

open Corelms Db Regen

theorem lessonFallback_cases (rngOf : Nat → Rng) (fa : Bool) (si nSubs : Nat)
    (title text : String) (qs0 : List LlmHandler.GenQ) (st : RunSt) :
    (∀ r, lessonFallback rngOf fa si nSubs title text qs0 st = .ok r →
      r.1.sess = st.sess ∧ r.1.reads = st.reads) ∧
    (∀ e, lessonFallback rngOf fa si nSubs title text qs0 st = .error e →
      ∃ stF, e = .failure stF ∧ stF.sess = st.sess ∧ stF.reads = st.reads) := by
  simp only [lessonFallback]
  constructor
  · intro r h
    split at h
    · split at h
      · exact absurd h (by simp)
      · split at h
        · injection h with h
          rw [← h]
          exact ⟨rfl, rfl⟩
        · injection h with h
          rw [← h]
          exact ⟨rfl, rfl⟩
    · injection h with h
      rw [← h]
      exact ⟨rfl, rfl⟩
  · intro e h
    split at h
    · split at h
      · injection h with h
        exact ⟨_, h.symm, rfl, rfl⟩
      · split at h <;> exact absurd h (by simp)
    · exact absurd h (by simp)

theorem lessonWrite_spec (db0 : Store) (nextId0 : Nat) (flag : Nat → Bool)
    (m : Module) (sub : Submodule) (si nSubs : Nat) (title : String)
    (qs : List LlmHandler.GenQ) (uh af : Bool) (st : RunSt) :
    StepSpec flag db0 nextId0 (lessonWrite flag m sub si nSubs title qs uh af st) st := by
  unfold lessonWrite
  simp only []
  apply stepSpec_bind_cc
  · rfl
  · rfl
  intro stB hBs hBr hflag
  apply stepSpec_of_ok
  · rw [show ∀ x : RunSt, ({ x with meta := (heartbeat x.meta
      ("DONE " ++ toString si ++ "/" ++ toString nSubs ++ ": " ++ title)) } : RunSt).sess.committed =
      x.sess.committed from fun x => rfl]
    rw [writeLesson_committed]
  · rfl
  · intro hInv
    exact writeLesson_inv db0 nextId0 _ sub m qs uh af title hInv

end Lemmas7

namespace Lemmas7

open Corelms Db Regen

theorem stepSpec_of_failure {flag : Nat → Bool} {db0 : Store} {nextId0 : Nat}
    {st stF : RunSt} (hs : stF.sess.committed = st.sess.committed)
    (hr : stF.reads = st.reads) :
    StepSpec flag db0 nextId0 (Except.error (.failure stF)) st := by
  refine ⟨?_, ?_, ?_⟩
  · intro s2 h
    exact absurd h (by simp)
  · intro s2 h
    injection h with h
    exact absurd h (by intro hh; cases hh)
  · intro s2 h
    injection h with h
    injection h with h
    subst h
    exact ⟨hs, CleanReads.refl_of_eq hr⟩

theorem stepSpec_bind {flag : Nat → Bool} {db0 : Store} {nextId0 : Nat}
    {x : Except JobErr RunSt} {k : RunSt → Except JobErr RunSt} {st : RunSt}
    (hx : StepSpec flag db0 nextId0 x st)
    (hk : ∀ stB, x = .ok stB → StepSpec flag db0 nextId0 (k stB) stB) :
    StepSpec flag db0 nextId0 (Bind.bind x k) st := by
  cases x with
  | error e =>
    rw [show (Bind.bind (Except.error e) k : Except JobErr RunSt) = Except.error e from rfl]
    exact ⟨fun s2 h => absurd h (by simp), hx.2.1, hx.2.2⟩
  | ok stB =>
    rw [show (Bind.bind (Except.ok stB) k : Except JobErr RunSt) = k stB from rfl]
    have hB := hx.1 stB rfl
    have hkk := hk stB rfl
    refine ⟨?_, ?_, ?_⟩
    · intro s2 h
      rcases hkk.1 s2 h with ⟨hc, hcl, hinv⟩
      exact ⟨by rw [hc, hB.1], CleanReads.trans hB.2.1 hcl, fun hi => hinv (hB.2.2 hi)⟩
    · intro s2 h
      rcases hkk.2.1 s2 h with ⟨hc, hst, hrd⟩
      exact ⟨by rw [hc, hB.1], hst, by have := hB.2.1.1; omega⟩
    · intro s2 h
      rcases hkk.2.2 s2 h with ⟨hc, hcl⟩
      exact ⟨by rw [hc, hB.1], CleanReads.trans hB.2.1 hcl⟩

theorem processLesson_spec (db0 : Store) (nextId0 : Nat) (flag : Nat → Bool)
    (ai : Nat → List LlmHandler.GenQ × Nat) (rngOf : Nat → Rng) (om fa : Bool)
    (m : Module) (nSubs si : Nat) (sub : Submodule) (st : RunSt) :
    StepSpec flag db0 nextId0 (processLesson flag ai rngOf om fa m nSubs si sub st) st := by
  unfold processLesson
  simp only []
  apply stepSpec_bind_cc
  · rfl
  · rfl
  intro stB hBs hBr hflag
  split
  · exact stepSpec_of_ok rfl rfl (fun h => h)
  · apply stepSpec_bind_cc
    · rfl
    · rfl
    intro stC hCs hCr hflag2
    cases hfb : lessonFallback rngOf fa si nSubs (lessonTitleOf sub si) sub.content
        (if 55 < (ai si).2 then [] else (ai si).1) stC with
    | error e =>
      rcases (lessonFallback_cases rngOf fa si nSubs (lessonTitleOf sub si) sub.content
          (if 55 < (ai si).2 then [] else (ai si).1) stC).2 e hfb with ⟨stF, rfl, hFs, hFr⟩
      exact stepSpec_of_failure (by rw [hFs]) hFr
    | ok r =>
      obtain ⟨stF, qs2, uh2, af2⟩ := r
      have hfacts := (lessonFallback_cases rngOf fa si nSubs (lessonTitleOf sub si) sub.content
        (if 55 < (ai si).2 then [] else (ai si).1) stC).1 _ hfb
      exact stepSpec_transfer
        (lessonWrite_spec db0 nextId0 flag m sub si nSubs (lessonTitleOf sub si) qs2 uh2 af2 stF)
        hfacts.1 hfacts.2

theorem lessonLoop_spec (db0 : Store) (nextId0 : Nat) (flag : Nat → Bool)
    (ai : Nat → List LlmHandler.GenQ × Nat) (rngOf : Nat → Rng) (om fa : Bool)
    (m : Module) (nSubs : Nat) :
    ∀ (subs : List Submodule) (si : Nat) (st : RunSt),
      StepSpec flag db0 nextId0 (lessonLoop flag ai rngOf om fa m nSubs si subs st) st := by
  intro subs
  induction subs with
  | nil =>
    intro si st
    exact stepSpec_of_ok rfl rfl (fun h => h)
  | cons sub rest ih =>
    intro si st
    unfold lessonLoop
    apply stepSpec_bind
    · exact processLesson_spec db0 nextId0 flag ai rngOf om fa m nSubs si sub st
    · intro stB _
      exact ih (si + 1) stB

end Lemmas7

namespace Lemmas7

open Corelms Db Regen

/-- A standalone cancel checkpoint meets the step contract. -/
theorem cancelCheckpoint_stepSpec {flag : Nat → Bool} {db0 : Store} {nextId0 : Nat}
    {stage : String} {Y st : RunSt} (hYs : Y.sess = st.sess) (hYr : Y.reads = st.reads) :
    StepSpec flag db0 nextId0 (cancelCheckpoint flag stage Y) st := by
  cases hc : cancelCheckpoint flag stage Y with
  | error e =>
    rcases cancelCheckpoint_error hc with ⟨stE, rfl, hsess, hstage, hreads, hflag⟩
    refine ⟨fun s2 h => absurd h (by simp), ?_, fun s2 h => absurd h (by simp)⟩
    intro s2 h
    injection h with h
    injection h with h
    subst h
    exact ⟨by rw [hsess, hYs], hstage, by omega⟩
  | ok stB =>
    rcases cancelCheckpoint_ok hc with ⟨hB, hflag⟩
    refine ⟨?_, fun s2 h => absurd h (by simp), fun s2 h => absurd h (by simp)⟩
    intro s2 h
    injection h with h
    subst h
    subst hB
    refine ⟨by rw [show ({ Y with reads := Y.reads + 1 } : RunSt).sess = Y.sess from rfl, hYs], ?_, ?_⟩
    · refine ⟨by simp; omega, ?_⟩
      intro k h1 h2
      simp at h2
      have : k = st.reads := by omega
      subst this
      rw [← hYr]
      exact hflag
    · intro hi
      rw [show ({ Y with reads := Y.reads + 1 } : RunSt).sess = Y.sess from rfl, hYs]
      exact hi

theorem bodySpec_bind {flag : Nat → Bool} {db0 : Store} {nextId0 : Nat}
    {x : Except JobErr RunSt} {k : RunSt → Except JobErr RunSt} {st : RunSt}
    (hx : StepSpec flag db0 nextId0 x st)
    (hk : ∀ stB, x = .ok stB → BodySpec flag db0 nextId0 (k stB) stB) :
    BodySpec flag db0 nextId0 (Bind.bind x k) st := by
  cases x with
  | error e =>
    rw [show (Bind.bind (Except.error e) k : Except JobErr RunSt) = Except.error e from rfl]
    exact ⟨fun s2 h => absurd h (by simp), hx.2.1, hx.2.2⟩
  | ok stB =>
    rw [show (Bind.bind (Except.ok stB) k : Except JobErr RunSt) = k stB from rfl]
    have hB := hx.1 stB rfl
    have hkk := hk stB rfl
    refine ⟨?_, ?_, ?_⟩
    · intro s2 h
      rcases hkk.1 s2 h with ⟨hcl, hinv⟩
      exact ⟨CleanReads.trans hB.2.1 hcl, fun hi => hinv (hB.2.2 hi)⟩
    · intro s2 h
      rcases hkk.2.1 s2 h with ⟨hc, hst, hrd⟩
      exact ⟨by rw [hc, hB.1], hst, by have := hB.2.1.1; omega⟩
    · intro s2 h
      rcases hkk.2.2 s2 h with ⟨hc, hcl⟩
      exact ⟨by rw [hc, hB.1], CleanReads.trans hB.2.1 hcl⟩

theorem bodySpec_of_commit {flag : Nat → Bool} {db0 : Store} {nextId0 : Nat}
    (stD : RunSt) (meta2 : JobMeta) :
    BodySpec flag db0 nextId0
      (Except.ok { stD with sess := stD.sess.commit, meta := meta2 }) stD := by
  refine ⟨?_, fun s2 h => absurd h (by simp), fun s2 h => absurd h (by simp)⟩
  intro s2 h
  injection h with h
  subst h
  refine ⟨CleanReads.refl_of_eq rfl, ?_⟩
  intro hi
  exact ⟨hi, rfl⟩

theorem regenJobBody_spec (db0 : Store) (nextId0 : Nat) (flag : Nat → Bool)
    (ai : Nat → List LlmHandler.GenQ × Nat) (rngOf : Nat → Rng) (om fa : Bool)
    (moduleId : Nat) (st0 : RunSt) :
    BodySpec flag db0 nextId0 (regenJobBody flag ai rngOf om fa moduleId st0) st0 := by
  unfold regenJobBody
  simp only []
  split
  · refine ⟨fun s2 h => absurd h (by simp), ?_, ?_⟩
    · intro s2 h
      injection h with h
      exact absurd h (by intro hh; cases hh)
    · intro s2 h
      injection h with h
      injection h with h
      subst h
      exact ⟨rfl, CleanReads.refl_of_eq rfl⟩
  · rename_i m hm
    apply bodySpec_bind (cancelCheckpoint_stepSpec rfl rfl)
    intro stB _
    apply bodySpec_bind (lessonLoop_spec db0 nextId0 flag ai rngOf om fa m _ _ 1 stB)
    intro stC _
    apply bodySpec_bind (cancelCheckpoint_stepSpec rfl rfl)
    intro stD _
    exact bodySpec_of_commit stD _

end Lemmas7

namespace Lemmas7

open Corelms Db Regen

/-- The invariant holds of the starting session (fresh ids above every
existing quiz id). -/
theorem regenInv_init (db0 : Store) (nextId0 : Nat)
    (hwf : ∀ qz ∈ db0.quizzes, qz.id < nextId0) :
    RegenInv db0 nextId0 ⟨db0, db0, nextId0⟩ := by
  refine ⟨⟨[], by simp⟩, ⟨[], by simp⟩, hwf, le_refl _, ?_, ?_⟩
  · intro q hq hqn
    exact absurd hq hqn
  · intro sub2 hs
    exact ⟨sub2, hs, rfl, Or.inl rfl⟩

end Lemmas7

/-- C7: whenever a cancel checkpoint of `regenerate_module_quizzes_job`
observes the cancel-requested flag (the run performed a flag read that
returned true), the job returns the `{ok: False, canceled: True}` outcome —
never a hard failure — with stage `canceled`, and the session is rolled back:
the committed store is the original database and the working view carries no
writes of the canceled run. -/
theorem c7_cancel_rolls_back (flag : Nat → Bool)
    (ai : Nat → List LlmHandler.GenQ × Nat) (rngOf : Nat → Corelms.Rng)
    (om fa : Bool) (moduleId : Nat) (db0 : Db.Store) (nextId0 : Nat)
    (meta0 : Regen.JobMeta)
    (hobs : ∃ k, k < (Regen.regenerate_module_quizzes_job flag ai rngOf om fa moduleId db0 nextId0 meta0).2.reads ∧ flag k = true) :
    (Regen.regenerate_module_quizzes_job flag ai rngOf om fa moduleId db0 nextId0 meta0).1 = Regen.RegenResult.canceled moduleId ∧
    (Regen.regenerate_module_quizzes_job flag ai rngOf om fa moduleId db0 nextId0 meta0).2.sess.committed = db0 ∧
    (Regen.regenerate_module_quizzes_job flag ai rngOf om fa moduleId db0 nextId0 meta0).2.sess.work = db0 ∧
    (Regen.regenerate_module_quizzes_job flag ai rngOf om fa moduleId db0 nextId0 meta0).2.meta.stage = "canceled" := by
  have hspec := Lemmas7.regenJobBody_spec db0 nextId0 flag ai rngOf om fa moduleId ⟨⟨db0, db0, nextId0⟩, meta0, 0⟩
  cases hb : Regen.regenJobBody flag ai rngOf om fa moduleId ⟨⟨db0, db0, nextId0⟩, meta0, 0⟩ with
  | ok st =>
    exfalso
    simp only [Regen.regenerate_module_quizzes_job, hb] at hobs
    rcases hobs with ⟨k, hk, hf⟩
    have hfalse := (hspec.1 st hb).1.2 k (Nat.zero_le k) hk
    rw [hf] at hfalse
    cases hfalse
  | error e =>
    cases e with
    | canceled st =>
      have hcc := hspec.2.1 st hb
      simp only [Regen.regenerate_module_quizzes_job, hb, Regen.Sess.rollback]
      refine ⟨by trivial, ?_, ?_, hcc.2.1⟩
      · rw [hcc.1]
      · rw [hcc.1]
    | failure st =>
      exfalso
      simp only [Regen.regenerate_module_quizzes_job, hb] at hobs
      rcases hobs with ⟨k, hk, hf⟩
      have hfalse := (hspec.2.2 st hb).2.2 k (Nat.zero_le k) hk
      rw [hf] at hfalse
      cases hfalse

/-- C8: a successful regeneration run (report returned) never deletes or
mutates a pre-existing Quiz or Question row: the committed store extends the
original quiz and question lists by appended rows only, every newly written
question lives under a quiz id that no pre-existing quiz used (so historical
attempt references stay valid) and that quiz row exists, and each submodule
is either untouched or merely re-pointed (`quiz_id`) to such a fresh quiz.
`nextId0` is the primary-key watermark: every existing quiz id is below it. -/
theorem c8_regen_preserves_history (flag : Nat → Bool)
    (ai : Nat → List LlmHandler.GenQ × Nat) (rngOf : Nat → Corelms.Rng)
    (om fa : Bool) (moduleId : Nat) (db0 : Db.Store) (nextId0 : Nat)
    (meta0 : Regen.JobMeta)
    (hwf : ∀ qz ∈ db0.quizzes, qz.id < nextId0)
    (hrep : (Regen.regenerate_module_quizzes_job flag ai rngOf om fa moduleId db0 nextId0 meta0).1 = Regen.RegenResult.report) :
    ∃ fin, fin = (Regen.regenerate_module_quizzes_job flag ai rngOf om fa moduleId db0 nextId0 meta0).2.sess.committed ∧
      (∃ e, fin.quizzes = db0.quizzes ++ e) ∧
      (∃ e, fin.questions = db0.questions ++ e) ∧
      (∀ q ∈ fin.questions, q ∉ db0.questions →
        (∀ qz ∈ db0.quizzes, qz.id ≠ q.quiz_id) ∧ ∃ qz ∈ fin.quizzes, qz.id = q.quiz_id) ∧
      (∀ sub2 ∈ fin.submodules, ∃ sub ∈ db0.submodules, sub2.id = sub.id ∧
        (sub2 = sub ∨ ∃ nqid, sub2 = { sub with quiz_id := some nqid } ∧
          (∀ qz ∈ db0.quizzes, qz.id ≠ nqid) ∧ ∃ qz ∈ fin.quizzes, qz.id = nqid)) := by
  have hspec := Lemmas7.regenJobBody_spec db0 nextId0 flag ai rngOf om fa moduleId ⟨⟨db0, db0, nextId0⟩, meta0, 0⟩
  cases hb : Regen.regenJobBody flag ai rngOf om fa moduleId ⟨⟨db0, db0, nextId0⟩, meta0, 0⟩ with
  | error e =>
    exfalso
    cases e with
    | canceled st =>
      simp only [Regen.regenerate_module_quizzes_job, hb] at hrep
      exact absurd hrep (by intro hh; cases hh)
    | failure st =>
      simp only [Regen.regenerate_module_quizzes_job, hb] at hrep
      exact absurd hrep (by intro hh; cases hh)
  | ok st =>
    rcases (hspec.1 st hb).2 (Lemmas7.regenInv_init db0 nextId0 hwf) with ⟨hInv, hcw⟩
    obtain ⟨⟨e1, hq⟩, ⟨e2, hqq⟩, hbound, hwm, hquest, hsubs⟩ := hInv
    refine ⟨st.sess.work, ?_, ⟨e1, hq⟩, ⟨e2, hqq⟩, ?_, ?_⟩
    · simp only [Regen.regenerate_module_quizzes_job, hb]
      exact hcw.symm
    · intro q hq2 hqn
      rcases hquest q hq2 hqn with ⟨hge, qz, hqzm, hqzid⟩
      refine ⟨?_, qz, hqzm, hqzid⟩
      intro qz2 hqz2
      have := hwf qz2 hqz2
      omega
    · intro sub2 hs2
      rcases hsubs sub2 hs2 with ⟨sub, hsm, hid, hcase⟩
      refine ⟨sub, hsm, hid, ?_⟩
      rcases hcase with h | ⟨nqid, h1, h2, qz, hqzm, hqzid⟩
      · exact Or.inl h
      · refine Or.inr ⟨nqid, h1, ?_, qz, hqzm, hqzid⟩
        intro qz2 hqz2
        have := hwf qz2 hqz2
        omega

theorem c7_cancel_rolls_back_witness :
    (∃ k, k < ExamplesR.runC7.2.reads ∧ (fun _ => true : Nat → Bool) k = true) ∧
    (ExamplesR.runC7.1 = Regen.RegenResult.canceled 1 ∧
     ExamplesR.runC7.2.sess.committed = ExamplesR.dbR ∧
     ExamplesR.runC7.2.sess.work = ExamplesR.dbR ∧
     ExamplesR.runC7.2.meta.stage = "canceled") :=
  ⟨⟨0, by decide, rfl⟩,
   c7_cancel_rolls_back (fun _ => true) ExamplesR.aiR ExamplesR.rngR false false 1
     ExamplesR.dbR 100 ExamplesR.metaR ⟨0, by decide, rfl⟩⟩

theorem c8_regen_preserves_history_witness :
    (∀ qz ∈ ExamplesR.dbR.quizzes, qz.id < 100) ∧
    ExamplesR.runC8.1 = Regen.RegenResult.report ∧
    (∃ fin, fin = ExamplesR.runC8.2.sess.committed ∧
      (∃ e, fin.quizzes = ExamplesR.dbR.quizzes ++ e) ∧
      (∃ e, fin.questions = ExamplesR.dbR.questions ++ e) ∧
      (∀ q ∈ fin.questions, q ∉ ExamplesR.dbR.questions →
        (∀ qz ∈ ExamplesR.dbR.quizzes, qz.id ≠ q.quiz_id) ∧
        ∃ qz ∈ fin.quizzes, qz.id = q.quiz_id) ∧
      (∀ sub2 ∈ fin.submodules, ∃ sub ∈ ExamplesR.dbR.submodules, sub2.id = sub.id ∧
        (sub2 = sub ∨ ∃ nqid, sub2 = { sub with quiz_id := some nqid } ∧
          (∀ qz ∈ ExamplesR.dbR.quizzes, qz.id ≠ nqid) ∧
          ∃ qz ∈ fin.quizzes, qz.id = nqid))) :=
  ⟨by decide, rfl,
   c8_regen_preserves_history (fun _ => false) ExamplesR.aiR ExamplesR.rngR false false 1
     ExamplesR.dbR 100 ExamplesR.metaR (by decide) rfl⟩
